import Mathlib

/-!
Verification development for the market data pipeline
(`scripts/data_processor.py` and `scripts/report_generator.py`).

The pipeline computes technical indicators over per-symbol daily bar series
with pandas/numpy.  We embed the numeric pipeline shallowly:

* pandas float cells are modelled by `PF ℚ` (finite rational, `nan`, `±inf`),
  with IEEE-style arithmetic and comparisons (`nan` propagates through
  arithmetic and makes every comparison false);
* columns are Lean lists; `rolling(window=w)` with the default
  `min_periods = w` is modelled by `rollingMean`/`rollingStd`;
* values produced through `sqrt` (standard deviations, Bollinger bands,
  volatility) live in `PF ℝ`;
* a raising pandas operation (`iloc[-1]` on an empty frame) is modelled with
  `Except`.
-/

namespace Pipeline

/-- A pandas float cell: `nan` (missing), `±inf`, or a finite value. -/
inductive PF (α : Type) where
  | nan : PF α
  | inf : PF α
  | ninf : PF α
  | fin : α → PF α
deriving DecidableEq

instance {α : Type} : Inhabited (PF α) := ⟨PF.nan⟩

namespace PF

variable {α : Type} [LinearOrderedField α]

/-- Is this cell missing (`pd.isna`)? -/
def isNan : PF α → Bool
  | nan => true
  | _ => false

/-- Is this cell a finite number? -/
def isFin : PF α → Bool
  | fin _ => true
  | _ => false

/-- Value of a finite cell (junk `0` on non-finite cells). -/
def toVal : PF α → α
  | fin x => x
  | _ => 0

/-- IEEE addition on float cells. -/
def add : PF α → PF α → PF α
  | nan, _ => nan
  | _, nan => nan
  | inf, ninf => nan
  | ninf, inf => nan
  | inf, _ => inf
  | _, inf => inf
  | ninf, _ => ninf
  | _, ninf => ninf
  | fin a, fin b => fin (a + b)

/-- IEEE negation on float cells. -/
def neg : PF α → PF α
  | nan => nan
  | inf => ninf
  | ninf => inf
  | fin a => fin (-a)

/-- IEEE subtraction on float cells. -/
def sub (x y : PF α) : PF α := x.add y.neg

/-- IEEE multiplication on float cells (`±inf * 0 = nan`). -/
def mul : PF α → PF α → PF α
  | nan, _ => nan
  | _, nan => nan
  | inf, inf => inf
  | inf, ninf => ninf
  | ninf, inf => ninf
  | ninf, ninf => inf
  | inf, fin b => if b = 0 then nan else if 0 < b then inf else ninf
  | fin a, inf => if a = 0 then nan else if 0 < a then inf else ninf
  | ninf, fin b => if b = 0 then nan else if 0 < b then ninf else inf
  | fin a, ninf => if a = 0 then nan else if 0 < a then ninf else inf
  | fin a, fin b => fin (a * b)

/-- IEEE division on float cells (`0/0 = nan`, `x/0 = ±inf` for `x ≠ 0`,
`x/±inf = 0`, `±inf/±inf = nan`); this is numpy's behaviour for pandas
column division. -/
def div : PF α → PF α → PF α
  | nan, _ => nan
  | _, nan => nan
  | inf, inf => nan
  | inf, ninf => nan
  | ninf, inf => nan
  | ninf, ninf => nan
  | inf, fin b => if 0 ≤ b then inf else ninf
  | ninf, fin b => if 0 ≤ b then ninf else inf
  | fin _, inf => fin 0
  | fin _, ninf => fin 0
  | fin a, fin b =>
    if b = 0 then (if a = 0 then nan else if 0 < a then inf else ninf)
    else fin (a / b)

/-- IEEE strict comparison: any comparison involving `nan` is false. -/
def blt : PF α → PF α → Bool
  | nan, _ => false
  | _, nan => false
  | inf, _ => false
  | _, inf => true
  | ninf, ninf => false
  | ninf, _ => true
  | _, ninf => false
  | fin a, fin b => decide (a < b)

/-- IEEE absolute value. -/
def abs : PF α → PF α
  | nan => nan
  | inf => inf
  | ninf => inf
  | fin a => fin |a|

/-- Map over the finite payload (used to cast `ℚ` cells into `ℝ` cells). -/
def map {β : Type} (f : α → β) : PF α → PF β
  | nan => nan
  | inf => inf
  | ninf => ninf
  | fin a => fin (f a)

/-- Total order used to model Python's `sorted` on the nan-free float lists
built by the report generator: `-inf < finite < +inf`, with `nan` placed
last (the pipeline never sorts a list containing `nan`). -/
def sle : PF ℚ → PF ℚ → Bool
  | ninf, _ => true
  | _, ninf => false
  | fin a, fin b => decide (a ≤ b)
  | fin _, _ => true
  | _, fin _ => false
  | inf, _ => true
  | _, inf => false
  | nan, nan => true

end PF

/-! ### Rolling-window primitives (pandas `Series.rolling(window=w)`) -/

/-- The trailing window of size `w` ending at index `i`:
elements `i+1-w, …, i` (shorter near the start of the list). -/
def window {β : Type} (xs : List β) (w i : ℕ) : List β :=
  (xs.take (i + 1)).drop (i + 1 - w)

/-- `Series.rolling(window=w).mean()` with the default `min_periods = w`:
the entry at `i` is the mean of the trailing `w` cells, `nan` while fewer
than `w` cells are available or when the window contains a `nan`. -/
def rollingMean (w : ℕ) (xs : List (PF ℚ)) : List (PF ℚ) :=
  (List.range xs.length).map fun i =>
    if w ≤ i + 1 ∧ ¬(window xs w i).any PF.isNan then
      ((window xs w i).foldl PF.add (PF.fin 0)).div (PF.fin (w : ℚ))
    else PF.nan

/-- Sample variance (the `n−1` pandas convention) of a list of rationals. -/
def sampleVar (xs : List ℚ) : ℚ :=
  ((xs.map fun x => (x - xs.sum / (xs.length : ℚ)) ^ 2).sum) / ((xs.length : ℚ) - 1)

/-- `Series.rolling(window=w).std()` (sample standard deviation, `ddof = 1`),
with the default `min_periods = w`.  The value lives in `PF ℝ` because of the
square root. -/
noncomputable def rollingStd (w : ℕ) (xs : List (PF ℚ)) : List (PF ℝ) :=
  (List.range xs.length).map fun i =>
    if w ≤ i + 1 ∧ ¬(window xs w i).any PF.isNan then
      PF.fin (Real.sqrt (((sampleVar ((window xs w i).map PF.toVal)) : ℚ) : ℝ))
    else PF.nan

/-- `Series.shift(1)` of a numeric column: `nan` first, then the previous
values (`zipWith` truncation keeps the length equal to `xs.length`). -/
def shift1 (xs : List ℚ) : List (PF ℚ) :=
  (PF.nan :: xs.map PF.fin).take xs.length

/-- `Series.diff()`: `x[i] − x[i−1]`, `nan` at index 0. -/
def diff (xs : List ℚ) : List (PF ℚ) :=
  List.zipWith (fun c p => (PF.fin c).sub p) xs (PF.nan :: xs.map PF.fin)

/-- `Series.pct_change()`: `(x[i] − x[i−1]) / x[i−1]`, `nan` at index 0. -/
def pctChange (xs : List ℚ) : List (PF ℚ) :=
  List.zipWith (fun c p => ((PF.fin c).sub p).div p) xs (PF.nan :: xs.map PF.fin)

/-- `numpy.cumsum` starting from an accumulator. -/
def cumsumFrom (acc : ℚ) : List ℚ → List ℚ
  | [] => []
  | x :: xs => (acc + x) :: cumsumFrom (acc + x) xs

/-- `numpy.cumsum`: running partial sums. -/
def cumsum (xs : List ℚ) : List ℚ := cumsumFrom 0 xs

/-- `Series.ewm(span=s).mean()` with the pandas defaults (`adjust=True`):
`y[i] = Σ_{j≤i} β^j x[i−j] / Σ_{j≤i} β^j` where `β = 1 − 2/(s+1)`. -/
def ewmMean (span : ℕ) (xs : List ℚ) : List ℚ :=
  let β : ℚ := 1 - 2 / ((span : ℚ) + 1)
  (List.range xs.length).map fun i =>
    (((List.range (i + 1)).map fun j => β ^ j * xs.getD (i - j) 0).sum) /
      (((List.range (i + 1)).map fun j => β ^ j).sum)

/-- Last `n` entries of a column (`Series.tail(n)`). -/
def lastN {β : Type} (n : ℕ) (xs : List β) : List β :=
  xs.drop (xs.length - n)

/-! ### Indicator calculations (`MarketDataProcessor.calculate_*`) -/

/-- `calculate_sma`: `data['Close'].rolling(window=window).mean()`. -/
def calculate_sma (closes : List ℚ) (w : ℕ := 20) : List (PF ℚ) :=
  rollingMean w (closes.map PF.fin)

/-- `calculate_ema`: `data['Close'].ewm(span=window).mean()` — defined (and
finite) at every index. -/
def calculate_ema (closes : List ℚ) (w : ℕ := 20) : List ℚ :=
  ewmMean w closes

/-- One cell of `delta.where(delta > 0, 0)`: keep the delta when it is
positive, else `0`.  A comparison with `nan` is false, so the leading `nan`
delta becomes `0`. -/
def gainCell (d : PF ℚ) : PF ℚ := if (PF.fin 0).blt d then d else PF.fin 0

/-- One cell of `-delta.where(delta < 0, 0)`. -/
def lossCell (d : PF ℚ) : PF ℚ := (if d.blt (PF.fin 0) then d else PF.fin 0).neg

/-- `rsi = 100 − 100/(1 + rs)`, on float cells. -/
def rsiFromRS (r : PF ℚ) : PF ℚ :=
  (PF.fin 100).sub ((PF.fin 100).div ((PF.fin 1).add r))

/-- `calculate_rsi`:
`delta = close.diff(); gain = delta.where(delta > 0, 0).rolling(w).mean();`
`loss = (-delta.where(delta < 0, 0)).rolling(w).mean(); rs = gain/loss;`
`rsi = 100 - 100/(1 + rs)`. -/
def calculate_rsi (closes : List ℚ) (w : ℕ := 14) : List (PF ℚ) :=
  let delta := diff closes
  let gain := rollingMean w (delta.map gainCell)
  let loss := rollingMean w (delta.map lossCell)
  let rs := List.zipWith PF.div gain loss
  rs.map rsiFromRS

/-- `calculate_bollinger_bands`: `(upper, middle, lower)` with
`middle = SMA(w)`, `upper = middle + num_std·σ`, `lower = middle − num_std·σ`,
`σ` the trailing `w`-sample standard deviation of close. -/
noncomputable def calculate_bollinger_bands (closes : List ℚ) (w : ℕ := 20)
    (numStd : ℚ := 2) : List (PF ℝ) × List (PF ℚ) × List (PF ℝ) :=
  let sma := calculate_sma closes w
  let std := rollingStd w (closes.map PF.fin)
  let upper := List.zipWith
    (fun s d => (PF.map (fun q : ℚ => (q : ℝ)) s).add (d.mul (PF.fin (numStd : ℝ)))) sma std
  let lower := List.zipWith
    (fun s d => (PF.map (fun q : ℚ => (q : ℝ)) s).sub (d.mul (PF.fin (numStd : ℝ)))) sma std
  (upper, sma, lower)

/-- `calculate_macd`: `(macd_line, signal_line, histogram)`; every entry is a
finite number (EMAs are defined everywhere), so the columns are plain `ℚ`. -/
def calculate_macd (closes : List ℚ) (fast : ℕ := 12) (slow : ℕ := 26)
    (sig : ℕ := 9) : List ℚ × List ℚ × List ℚ :=
  let emaFast := calculate_ema closes fast
  let emaSlow := calculate_ema closes slow
  let macdLine := List.zipWith (· - ·) emaFast emaSlow
  let signalLine := ewmMean sig macdLine
  let histogram := List.zipWith (· - ·) macdLine signalLine
  (macdLine, signalLine, histogram)

/-- `calculate_volatility`: rolling sample standard deviation of
`pct_change`, annualized by `√252`. -/
noncomputable def calculate_volatility (closes : List ℚ) (w : ℕ := 20) : List (PF ℝ) :=
  (rollingStd w (pctChange closes)).map fun s => s.mul (PF.fin (Real.sqrt 252))

/-- `calculate_volume_indicators`: `(vol_ma, vol_ratio, obv)` where
`vol_ma = volume.rolling(20).mean()`, `vol_ratio = volume / vol_ma`, and
`obv = np.where(close > close.shift(1), volume,`
`       np.where(close < close.shift(1), -volume, 0)).cumsum()`.
Both comparisons against the shifted `nan` at index 0 are false, so the
first OBV contribution is `0`; `obv` has a number at every index. -/
def calculate_volume_indicators (closes volumes : List ℚ) :
    List (PF ℚ) × List (PF ℚ) × List ℚ :=
  let volMA := rollingMean 20 (volumes.map PF.fin)
  let volRatio := List.zipWith (fun v m => (PF.fin v).div m) volumes volMA
  let contribs := List.zipWith
    (fun cv p =>
      if p.blt (PF.fin cv.1) then cv.2
      else if (PF.fin cv.1).blt p then -cv.2 else 0)
    (closes.zip volumes) (PF.nan :: closes.map PF.fin)
  (volMA, volRatio, cumsum contribs)

/-! ### Frames (`process_symbol_data` and `generate_summary_stats`) -/

/-- One raw daily bar (a CSV row before processing).  Dates are modelled as
ordinal day numbers. -/
structure Bar where
  date : ℕ
  open_ : ℚ
  high : ℚ
  low : ℚ
  close : ℚ
  volume : ℚ
deriving DecidableEq, Inhabited

/-- One row of the processed frame: the raw bar plus every derived column
added by `process_symbol_data`.  Raw OHLCV cells and columns that are
everywhere-finite (`EMA`, `MACD`, `OBV`, `Price_Change`, `HL_Spread`) are
plain `ℚ`; the rest carry their missing-value marker through `PF`. -/
structure AnnRow where
  date : ℕ
  open_ : ℚ
  high : ℚ
  low : ℚ
  close : ℚ
  volume : ℚ
  sma_20 : PF ℚ
  sma_50 : PF ℚ
  ema_20 : ℚ
  rsi : PF ℚ
  bb_upper : PF ℝ
  bb_middle : PF ℚ
  bb_lower : PF ℝ
  macd : ℚ
  macd_signal_line : ℚ
  macd_histogram : ℚ
  volatility : PF ℝ
  volume_ma : PF ℚ
  volume_ratio : PF ℚ
  obv : ℚ
  daily_return : PF ℚ
  price_change : ℚ
  price_change_pct : PF ℚ
  hl_spread : ℚ
  hl_spread_pct : PF ℚ

instance : Inhabited AnnRow :=
  ⟨{ date := 0, open_ := 0, high := 0, low := 0, close := 0, volume := 0,
     sma_20 := PF.nan, sma_50 := PF.nan, ema_20 := 0, rsi := PF.nan,
     bb_upper := PF.nan, bb_middle := PF.nan, bb_lower := PF.nan,
     macd := 0, macd_signal_line := 0, macd_histogram := 0,
     volatility := PF.nan, volume_ma := PF.nan, volume_ratio := PF.nan,
     obv := 0, daily_return := PF.nan, price_change := 0,
     price_change_pct := PF.nan, hl_spread := 0, hl_spread_pct := PF.nan }⟩

/-- The indicator-annotation core of `process_symbol_data`: sort the bars by
date, compute every derived column, and return the extended frame
(row-wise).  Divisions by a raw cell (`Price_Change_Pct` by `Open`,
`HL_Spread_Pct` by `Close`) go through `PF.div` to keep numpy's
division-by-zero behaviour. -/
noncomputable def addIndicators (bars : List Bar) : List AnnRow :=
  let bs := List.insertionSort (fun a b => a.date ≤ b.date) bars
  let closes := bs.map Bar.close
  let volumes := bs.map Bar.volume
  let sma20 := calculate_sma closes 20
  let sma50 := calculate_sma closes 50
  let ema20 := calculate_ema closes 20
  let rsi := calculate_rsi closes
  let bb := calculate_bollinger_bands closes
  let macd := calculate_macd closes
  let volat := calculate_volatility closes
  let volInd := calculate_volume_indicators closes volumes
  let dailyReturn := pctChange closes
  (List.range bs.length).map fun i =>
    let b := bs.getD i default
    { date := b.date, open_ := b.open_, high := b.high, low := b.low,
      close := b.close, volume := b.volume,
      sma_20 := sma20.getD i PF.nan, sma_50 := sma50.getD i PF.nan,
      ema_20 := ema20.getD i 0, rsi := rsi.getD i PF.nan,
      bb_upper := bb.1.getD i PF.nan, bb_middle := bb.2.1.getD i PF.nan,
      bb_lower := bb.2.2.getD i PF.nan,
      macd := macd.1.getD i 0, macd_signal_line := macd.2.1.getD i 0,
      macd_histogram := macd.2.2.getD i 0,
      volatility := volat.getD i PF.nan,
      volume_ma := volInd.1.getD i PF.nan,
      volume_ratio := volInd.2.1.getD i PF.nan,
      obv := volInd.2.2.getD i 0,
      daily_return := dailyReturn.getD i PF.nan,
      price_change := b.close - b.open_,
      price_change_pct := ((PF.fin b.close).sub (PF.fin b.open_)).div (PF.fin b.open_)
        |>.mul (PF.fin 100),
      hl_spread := b.high - b.low,
      hl_spread_pct := ((PF.fin b.high).sub (PF.fin b.low)).div (PF.fin b.close)
        |>.mul (PF.fin 100) }

/-- `process_symbol_data`: loading the CSV may raise (e.g. an entirely empty
file), which the function's `try/except` turns into `None`; otherwise the
frame is annotated with every indicator column.  The input is therefore the
parse result: `none` models a failed load. -/
noncomputable def process_symbol_data (parsed : Option (List Bar)) : Option (List AnnRow) :=
  parsed.map addIndicators

/-- `_calculate_bb_position`: position of the latest close inside the
Bollinger band, `"N/A"` when a band is missing or the band has zero
width. -/
noncomputable def calculate_bb_position (row : AnnRow) : String :=
  if row.bb_upper.isNan ∨ row.bb_lower.isNan then "N/A"
  else
    let bbWidth := row.bb_upper.sub row.bb_lower
    if bbWidth = PF.fin 0 then "N/A"
    else
      let position := ((PF.fin (row.close : ℝ)).sub row.bb_lower).div bbWidth
      if (PF.fin ((4 : ℝ) / 5)).blt position then "Upper"
      else if position.blt (PF.fin ((1 : ℝ) / 5)) then "Lower"
      else "Middle"

/-- `_get_macd_signal`: the MACD columns are everywhere-finite, so the
`pd.isna` guards of the source are vacuous and only the comparison
remains. -/
def get_macd_signal (row : AnnRow) : String :=
  if row.macd_signal_line < row.macd then "Bullish" else "Bearish"

/-- The flat per-symbol record built by `generate_summary_stats` from the
last row of a processed frame. -/
structure SummaryStats where
  symbol : String
  date : ℕ
  close_price : ℚ
  daily_return : PF ℚ
  volume : ℚ
  volume_ratio : PF ℚ
  rsi : PF ℚ
  sma_20 : PF ℚ
  sma_50 : PF ℚ
  volatility : PF ℝ
  bb_position : String
  macd_signal : String

/-- `generate_summary_stats`: reads `data.iloc[-1]`, which raises an
`IndexError` on an empty frame — modelled by `Except.error`.  There is no
empty-frame guard in the source. -/
noncomputable def generate_summary_stats (data : List AnnRow) (symbol : String) :
    Except Unit SummaryStats :=
  match data.getLast? with
  | none => .error ()
  | some latest => .ok
    { symbol := symbol, date := latest.date, close_price := latest.close,
      daily_return := latest.daily_return, volume := latest.volume,
      volume_ratio := latest.volume_ratio, rsi := latest.rsi,
      sma_20 := latest.sma_20, sma_50 := latest.sma_50,
      volatility := latest.volatility,
      bb_position := calculate_bb_position latest,
      macd_signal := get_macd_signal latest }

/-- `process_all_data`: iterate over the discovered data files (symbol plus
parse result).  A file whose load failed is skipped (`process_symbol_data`
returned `None`); but an exception raised later in the loop body —
`generate_summary_stats` on an empty frame — is uncaught and aborts the
whole batch.  With no files at all the function returns `[]`. -/
noncomputable def process_all_data (files : List (String × Option (List Bar))) :
    Except Unit (List SummaryStats) :=
  if files.isEmpty then .ok []
  else
    files.foldlM
      (fun acc sf =>
        match process_symbol_data sf.2 with
        | none => pure acc
        | some frame => do
          let s ← generate_summary_stats frame sf.1
          pure (acc ++ [s]))
      []

/-! ### Market aggregation (`MarketReportGenerator`) -/

/-- The per-symbol entry of the gainers / losers / high-volume lists. -/
structure SymbolInfo where
  symbol : String
  price : ℚ
  change : PF ℚ
  volume : ℚ
  volume_ratio : PF ℚ
deriving DecidableEq

/-- A price-change alert (the rendered message is presentation-only and is
not modelled beyond the severity). -/
structure Alert where
  symbol : String
  severity : String
deriving DecidableEq

/-- The cross-symbol summary built by `generate_market_summary`
(the `date` field, `datetime.now()`, is ambient I/O and not modelled). -/
structure MarketSummary where
  total_symbols : ℕ
  gainers : List SymbolInfo
  losers : List SymbolInfo
  high_volume : List SymbolInfo
  alerts : List Alert

/-- The last row of a symbol's frame, if the symbol participates in the
summary: an empty frame is skipped (`continue`), as is a last row whose
`Daily_Return` is missing (`pd.isna`; the `Close` cell is a plain number in
this model, so its `isna` check is vacuous). -/
def includedRow? (data : List AnnRow) : Option AnnRow :=
  match data.getLast? with
  | none => none
  | some r => if r.daily_return.isNan then none else some r

/-- The `symbol_info` record built inside the `generate_market_summary`
loop. -/
def rowInfo (symbol : String) (r : AnnRow) : SymbolInfo :=
  { symbol := symbol, price := r.close,
    change := r.daily_return.mul (PF.fin 100), volume := r.volume,
    volume_ratio := r.volume_ratio }

/-- The gainer / loser classification of the loop body:
`if dr > 0.02 → gainer; elif dr < -0.02 → loser; else neither`. -/
def classifyRow (dr : PF ℚ) : Option Bool :=
  if (PF.fin (1 / 50)).blt dr then some true
  else if dr.blt (PF.fin (-(1 / 50))) then some false
  else none

/-- Pre-ranking gainers list, in dictionary order. -/
def gainersRaw (dd : List (String × List AnnRow)) : List SymbolInfo :=
  dd.filterMap fun sf =>
    (includedRow? sf.2).bind fun r =>
      if classifyRow r.daily_return = some true then some (rowInfo sf.1 r) else none

/-- Pre-ranking losers list, in dictionary order. -/
def losersRaw (dd : List (String × List AnnRow)) : List SymbolInfo :=
  dd.filterMap fun sf =>
    (includedRow? sf.2).bind fun r =>
      if classifyRow r.daily_return = some false then some (rowInfo sf.1 r) else none

/-- Pre-ranking high-volume list: `Volume_Ratio` defined and above the
configured multiplier. -/
def highVolumeRaw (volumeMultiplier : ℚ) (dd : List (String × List AnnRow)) :
    List SymbolInfo :=
  dd.filterMap fun sf =>
    (includedRow? sf.2).bind fun r =>
      if ¬r.volume_ratio.isNan ∧ (PF.fin volumeMultiplier).blt r.volume_ratio then
        some (rowInfo sf.1 r)
      else none

/-- Price-change alerts: `|Daily_Return|` above the configured threshold
(given in percent), severity `"high"` above 10 %. -/
def alertsRaw (priceChangeThreshold : ℚ) (dd : List (String × List AnnRow)) :
    List Alert :=
  dd.filterMap fun sf =>
    (includedRow? sf.2).bind fun r =>
      if (PF.fin (priceChangeThreshold / 100)).blt r.daily_return.abs then
        some { symbol := sf.1,
               severity := if (PF.fin (1 / 10)).blt r.daily_return.abs then "high"
                           else "medium" }
      else none

/-- Python's `sorted(…, key=lambda x: x['change'], reverse=True)` on the
nan-free lists above: a stable sort placing larger changes first. -/
def gainerOrd (a b : SymbolInfo) : Prop := PF.sle b.change a.change = true

/-- `sorted(…, key=lambda x: x['change'])`: smaller (more negative) changes
first. -/
def loserOrd (a b : SymbolInfo) : Prop := PF.sle a.change b.change = true

/-- `sorted(…, key=lambda x: x['volume_ratio'], reverse=True)`. -/
def highVolumeOrd (a b : SymbolInfo) : Prop :=
  PF.sle b.volume_ratio a.volume_ratio = true

instance : DecidableRel gainerOrd := fun _ _ => instDecidableEqBool _ _
instance : DecidableRel loserOrd := fun _ _ => instDecidableEqBool _ _
instance : DecidableRel highVolumeOrd := fun _ _ => instDecidableEqBool _ _

/-- `generate_market_summary`: classify every participating symbol, then
sort and truncate each ranked list to 10 entries; alerts stay unsorted and
uncapped. -/
def generate_market_summary (volumeMultiplier priceChangeThreshold : ℚ)
    (dd : List (String × List AnnRow)) : MarketSummary :=
  { total_symbols := dd.length,
    gainers := (List.insertionSort gainerOrd (gainersRaw dd)).take 10,
    losers := (List.insertionSort loserOrd (losersRaw dd)).take 10,
    high_volume :=
      (List.insertionSort highVolumeOrd (highVolumeRaw volumeMultiplier dd)).take 10,
    alerts := alertsRaw priceChangeThreshold dd }

/-! ### Per-symbol narrative (`generate_symbol_analysis`) -/

/-- Mean of a pandas Series (`skipna=True`): missing cells are dropped, the
mean of zero observations is `nan`. -/
def seriesMean (xs : List (PF ℚ)) : PF ℚ :=
  let vals := xs.filter fun x => !x.isNan
  if vals.isEmpty then PF.nan
  else (vals.foldl PF.add (PF.fin 0)).div (PF.fin (vals.length : ℚ))

/-- Sample standard deviation of a pandas Series (`skipna=True`,
`ddof = 1`): `nan` with fewer than two finite observations. -/
noncomputable def seriesStd (xs : List (PF ℚ)) : PF ℝ :=
  let vals := xs.filter fun x => !x.isNan
  if vals.all PF.isFin then
    if vals.length ≤ 1 then PF.nan
    else PF.fin (Real.sqrt ((sampleVar (vals.map PF.toVal) : ℚ) : ℝ))
  else PF.nan

/-- `Series.quantile(q)` with the default linear interpolation, on a
nan-free numeric column. -/
def quantile (xs : List ℚ) (q : ℚ) : ℚ :=
  let s := List.insertionSort (· ≤ ·) xs
  let h : ℚ := ((s.length : ℚ) - 1) * q
  let lo : ℕ := (⌊h⌋).toNat
  s.getD lo 0 + (h - (lo : ℚ)) * (s.getD (lo + 1) (s.getD lo 0) - s.getD lo 0)

/-- `_get_bb_position` (report side): qualitative Bollinger position of the
latest close. -/
noncomputable def get_bb_position (row : AnnRow) : String :=
  if row.bb_upper.isNan ∨ row.bb_lower.isNan then "N/A"
  else if row.bb_upper.blt (PF.fin (row.close : ℝ)) then "Above Upper Band (Overbought)"
  else if (PF.fin (row.close : ℝ)).blt row.bb_lower then "Below Lower Band (Oversold)"
  else "Within Bands (Normal)"

/-- `_analyze_sma_trend`: qualitative trend from close vs `SMA_20` vs
`SMA_50` (`"Insufficient data"` when either SMA is missing). -/
def analyze_sma_trend (row : AnnRow) : String :=
  if row.sma_20.isNan ∨ row.sma_50.isNan then "Insufficient data"
  else if row.sma_20.blt (PF.fin row.close) && row.sma_50.blt row.sma_20 then
    "Strong Uptrend"
  else if row.sma_20.blt (PF.fin row.close) && row.sma_20.blt row.sma_50 then
    "Weak Uptrend"
  else if (PF.fin row.close).blt row.sma_20 && row.sma_20.blt row.sma_50 then
    "Strong Downtrend"
  else "Weak Downtrend"

/-- `_find_support_resistance` on the trailing 20 rows: `(support,
resistance)` as the 10th percentile of lows and 90th percentile of highs,
missing with fewer than 10 rows. -/
def find_support_resistance (rows : List AnnRow) : PF ℚ × PF ℚ :=
  if rows.length < 10 then (PF.nan, PF.nan)
  else (PF.fin (quantile (rows.map AnnRow.low) (1 / 10)),
        PF.fin (quantile (rows.map AnnRow.high) (9 / 10)))

/-- The detailed per-symbol narrative record. -/
structure SymbolAnalysis where
  symbol : String
  current_price : ℚ
  daily_change : PF ℚ
  daily_change_abs : ℚ
  volume : ℚ
  volume_change : ℚ
  rsi : PF ℚ
  sma_20 : PF ℚ
  sma_50 : PF ℚ
  bb_position : String
  macd_signal : ℚ
  volatility : PF ℝ
  avg_return_7d : PF ℚ
  avg_return_30d : PF ℚ
  volatility_7d : PF ℝ
  volatility_30d : PF ℝ
  trend_sma : String
  support_resistance : PF ℚ × PF ℚ

/-- `generate_symbol_analysis`: `None` on an empty frame; otherwise the
narrative over the last row, the previous row (the last row itself for a
one-row frame), and the trailing 7- and 30-entry `Daily_Return` windows. -/
noncomputable def generate_symbol_analysis (symbol : String) (data : List AnnRow) :
    Option SymbolAnalysis :=
  match data.getLast? with
  | none => none
  | some latest =>
    let prevDay := if 1 < data.length then data.getD (data.length - 2) default
                   else latest
    let returns30 := lastN 30 (data.map AnnRow.daily_return)
    let returns7 := lastN 7 (data.map AnnRow.daily_return)
    some
      { symbol := symbol, current_price := latest.close,
        daily_change := latest.daily_return.mul (PF.fin 100),
        daily_change_abs := latest.price_change,
        volume := latest.volume,
        volume_change :=
          if 0 < prevDay.volume then
            (latest.volume - prevDay.volume) / prevDay.volume * 100
          else 0,
        rsi := latest.rsi, sma_20 := latest.sma_20, sma_50 := latest.sma_50,
        bb_position := get_bb_position latest,
        macd_signal := latest.macd,
        volatility := latest.volatility,
        avg_return_7d := (seriesMean returns7).mul (PF.fin 100),
        avg_return_30d := (seriesMean returns30).mul (PF.fin 100),
        volatility_7d := (seriesStd returns7).mul (PF.fin (100 : ℝ)),
        volatility_30d := (seriesStd returns30).mul (PF.fin (100 : ℝ)),
        trend_sma := analyze_sma_trend latest,
        support_resistance := find_support_resistance (lastN 20 data) }

/-! ### Basic lemmas about the embedding -/

namespace PF

@[simp] theorem isNan_nan {α : Type} : (nan : PF α).isNan = true := rfl

@[simp] theorem isNan_inf {α : Type} : (inf : PF α).isNan = false := rfl

@[simp] theorem isNan_ninf {α : Type} : (ninf : PF α).isNan = false := rfl

@[simp] theorem isNan_fin {α : Type} (a : α) : (fin a).isNan = false := rfl

@[simp] theorem isFin_fin {α : Type} (a : α) : (fin a).isFin = true := rfl

theorem isFin_iff {α : Type} (x : PF α) : x.isFin = true ↔ ∃ a, x = fin a := by
  cases x <;> simp [isFin]

variable {α : Type} [LinearOrderedField α]

@[simp] theorem toVal_fin (a : α) : (fin a).toVal = a := rfl

@[simp] theorem add_fin_fin (a b : α) : (fin a).add (fin b) = fin (a + b) := rfl

@[simp] theorem add_fin_nan (a : α) : (fin a).add nan = nan := rfl

@[simp] theorem add_nan (x : PF α) : (nan : PF α).add x = nan := by cases x <;> rfl

@[simp] theorem add_fin_inf (a : α) : (fin a).add inf = inf := rfl

@[simp] theorem sub_fin_fin (a b : α) : (fin a).sub (fin b) = fin (a - b) := by
  simp [sub, neg, sub_eq_add_neg]

@[simp] theorem sub_fin_nan (a : α) : (fin a).sub nan = nan := rfl

@[simp] theorem sub_fin_inf (a : α) : (fin a).sub inf = ninf := rfl

@[simp] theorem mul_fin_fin (a b : α) : (fin a).mul (fin b) = fin (a * b) := rfl

@[simp] theorem mul_nan (x : PF α) : (nan : PF α).mul x = nan := by cases x <;> rfl

@[simp] theorem div_fin_nan (a : α) : (fin a).div nan = nan := rfl

@[simp] theorem div_fin_inf (a : α) : (fin a).div inf = fin 0 := rfl

@[simp] theorem div_nan (x : PF α) : (nan : PF α).div x = nan := by cases x <;> rfl

theorem div_fin_fin (a b : α) :
    (fin a).div (fin b) =
      if b = 0 then (if a = 0 then nan else if 0 < a then inf else ninf)
      else fin (a / b) := rfl

theorem div_fin_fin_of_ne (a : α) {b : α} (hb : b ≠ 0) :
    (fin a).div (fin b) = fin (a / b) := by
  rw [div_fin_fin, if_neg hb]

@[simp] theorem blt_fin_fin (a b : α) : (fin a).blt (fin b) = decide (a < b) := rfl

@[simp] theorem blt_fin_nan (a : α) : (fin a).blt nan = false := by rfl

@[simp] theorem blt_nan (x : PF α) : (nan : PF α).blt x = false := by cases x <;> rfl

@[simp] theorem blt_fin_inf (a : α) : (fin a).blt inf = true := rfl

@[simp] theorem neg_fin (a : α) : (fin a).neg = fin (-a) := rfl

/-- Folding IEEE addition over a list of finite cells is finite addition. -/
theorem foldl_add_eq_fin :
    ∀ (l : List (PF α)) (q : α), (∀ x ∈ l, ∃ a, x = fin a) →
      l.foldl add (fin q) = fin (q + (l.map toVal).sum)
  | [], q, _ => by simp
  | x :: l, q, h => by
    obtain ⟨a, rfl⟩ := h x (by simp)
    rw [List.foldl_cons, add_fin_fin,
      foldl_add_eq_fin l (q + a) (fun y hy => h y (List.mem_cons_of_mem _ hy))]
    simp [add_assoc]

end PF

theorem window_map {β γ : Type} (f : β → γ) (xs : List β) (w i : ℕ) :
    window (xs.map f) w i = (window xs w i).map f := by
  simp [window, List.map_take, List.map_drop]

theorem window_eq_drop_take {β : Type} (xs : List β) (w i : ℕ) (h : w ≤ i + 1) :
    window xs w i = (xs.drop (i + 1 - w)).take w := by
  rw [window, List.drop_take]
  congr 1
  omega

theorem window_length {β : Type} (xs : List β) (w i : ℕ) (hw : w ≤ i + 1)
    (hi : i < xs.length) : (window xs w i).length = w := by
  simp only [window, List.length_drop, List.length_take]
  omega

theorem getD_map {β γ : Type} (f : β → γ) (l : List β) (k : ℕ) (d : γ) (d' : β)
    (hk : k < l.length) : (l.map f).getD k d = f (l.getD k d') := by
  rw [List.getD_eq_getElem _ _ (by simpa using hk), List.getD_eq_getElem _ _ hk,
    List.getElem_map]

theorem window_getD {β : Type} (d : β) (xs : List β) (w i j : ℕ) (hw : w ≤ i + 1)
    (hi : i < xs.length) (hj : j < w) :
    (window xs w i).getD j d = xs.getD (i + 1 - w + j) d := by
  have hlen : (window xs w i).length = w := window_length xs w i hw hi
  have hb1 : j < (window xs w i).length := by omega
  have hb2 : i + 1 - w + j < xs.length := by omega
  rw [List.getD_eq_getElem _ _ hb1, List.getD_eq_getElem _ _ hb2]
  simp only [window, List.getElem_drop, List.getElem_take]

theorem mem_window {β : Type} (d : β) (xs : List β) (w i : ℕ) (hw : w ≤ i + 1)
    (hi : i < xs.length) (x : β) (hx : x ∈ window xs w i) :
    ∃ j, j < w ∧ x = xs.getD (i + 1 - w + j) d := by
  obtain ⟨k, hk, rfl⟩ := List.mem_iff_getElem.mp hx
  have hlen : (window xs w i).length = w := window_length xs w i hw hi
  refine ⟨k, by omega, ?_⟩
  rw [← window_getD d xs w i k hw hi (by omega), List.getD_eq_getElem _ _ hk]

@[simp] theorem rollingMean_length (w : ℕ) (xs : List (PF ℚ)) :
    (rollingMean w xs).length = xs.length := by
  simp [rollingMean]

theorem rollingMean_getElem? (w : ℕ) (xs : List (PF ℚ)) (i : ℕ) (hi : i < xs.length) :
    (rollingMean w xs)[i]? =
      some (if w ≤ i + 1 ∧ ¬(window xs w i).any PF.isNan then
              ((window xs w i).foldl PF.add (PF.fin 0)).div (PF.fin (w : ℚ))
            else PF.nan) := by
  simp [rollingMean, List.getElem?_range, hi]

/-! ### C4 — SMA windowing -/

/-- C4: for every window size `w ≥ 1` and every series, `SMA(w)` at index
`i` is the arithmetic mean of the closes at indices `i−w+1 … i` whenever
`i ≥ w−1`, and is the missing-value marker `nan` (not zero) for every
`i < w−1`. -/
theorem calculate_sma_spec (closes : List ℚ) (w i : ℕ) (hw : 1 ≤ w)
    (hi : i < closes.length) :
    (calculate_sma closes w)[i]? =
      some (if w ≤ i + 1
            then PF.fin ((((closes.drop (i + 1 - w)).take w).sum) / (w : ℚ))
            else PF.nan) := by
  have hi' : i < (closes.map PF.fin).length := by simpa using hi
  rw [calculate_sma, rollingMean_getElem? _ _ _ hi']
  have hwin : window (closes.map PF.fin) w i = (window closes w i).map PF.fin :=
    window_map ..
  by_cases h : w ≤ i + 1
  · have hnon : (window (closes.map PF.fin) w i).any PF.isNan = false := by
      rw [hwin]
      simp [List.any_map, Function.comp]
    rw [if_pos ⟨h, by simp [hnon]⟩, if_pos h, hwin]
    have hfin : ∀ x ∈ (window closes w i).map PF.fin, ∃ a, x = PF.fin a := by
      intro x hx
      rw [List.mem_map] at hx
      obtain ⟨a, -, rfl⟩ := hx
      exact ⟨a, rfl⟩
    rw [PF.foldl_add_eq_fin _ _ hfin]
    have hcast : ((w : ℚ)) ≠ 0 := Nat.cast_ne_zero.mpr (by omega)
    rw [PF.div_fin_fin_of_ne _ hcast]
    rw [List.map_map, window_eq_drop_take _ _ _ h]
    simp [Function.comp_def]
  · rw [if_neg (fun hc => h hc.1), if_neg h]

/-- Concrete instance of C4: with `w = 2` the SMA of `[4, 6, 10]` at index 2
is `(6 + 10)/2 = 8`, and at index 0 it is the missing marker. -/
theorem calculate_sma_spec_witness :
    ((1 ≤ 2 ∧ (2 : ℕ) < ([4, 6, 10] : List ℚ).length) ∧
      (calculate_sma [4, 6, 10] 2)[2]? =
        some (if 2 ≤ 2 + 1
              then PF.fin (((([4, 6, 10] : List ℚ).drop (2 + 1 - 2)).take 2).sum / (2 : ℚ))
              else PF.nan)) ∧
    (calculate_sma [4, 6, 10] 2)[0]? =
      some (if 2 ≤ 0 + 1
            then PF.fin (((([4, 6, 10] : List ℚ).drop (0 + 1 - 2)).take 2).sum / (2 : ℚ))
            else PF.nan) :=
  ⟨⟨⟨by decide, by decide⟩, calculate_sma_spec [4, 6, 10] 2 2 (by decide) (by decide)⟩,
    calculate_sma_spec [4, 6, 10] 2 0 (by decide) (by decide)⟩

/-! ### C5 — On-Balance Volume -/

theorem cumsumFrom_length (l : List ℚ) : ∀ a : ℚ, (cumsumFrom a l).length = l.length := by
  induction l with
  | nil => intro a; rfl
  | cons x xs ih => intro a; simp [cumsumFrom, ih]

theorem cumsumFrom_getD (l : List ℚ) :
    ∀ (a : ℚ) (i : ℕ), i < l.length →
      (cumsumFrom a l).getD i 0 = a + (l.take (i + 1)).sum := by
  induction l with
  | nil => intro a i h; simp at h
  | cons x xs ih =>
    intro a i h
    cases i with
    | zero => simp [cumsumFrom]
    | succ j =>
      have hj : j < xs.length := by simpa using h
      simp only [cumsumFrom, List.getD_cons_succ, List.take_succ_cons, List.sum_cons]
      rw [ih (a + x) j hj]
      ring

/-- The per-index OBV contribution column of `calculate_volume_indicators`
(the nested `np.where` before `cumsum`). -/
def obvContribs (closes volumes : List ℚ) : List ℚ :=
  List.zipWith
    (fun cv p =>
      if p.blt (PF.fin cv.1) then cv.2
      else if (PF.fin cv.1).blt p then -cv.2 else 0)
    (closes.zip volumes) (PF.nan :: closes.map PF.fin)

theorem calculate_volume_indicators_obv (closes volumes : List ℚ) :
    (calculate_volume_indicators closes volumes).2.2 = cumsum (obvContribs closes volumes) := rfl

theorem obvContribs_length (closes volumes : List ℚ)
    (hlen : volumes.length = closes.length) :
    (obvContribs closes volumes).length = closes.length := by
  simp [obvContribs, hlen]

theorem obvContribs_getD_zero (closes volumes : List ℚ)
    (hlen : volumes.length = closes.length) (h0 : 0 < closes.length) :
    (obvContribs closes volumes).getD 0 0 = 0 := by
  have hl : (obvContribs closes volumes).length = closes.length :=
    obvContribs_length closes volumes hlen
  rw [List.getD_eq_getElem _ _ (by omega)]
  simp only [obvContribs, List.getElem_zipWith]
  simp

theorem obvContribs_getD_succ (closes volumes : List ℚ)
    (hlen : volumes.length = closes.length) (i : ℕ) (h1 : 1 ≤ i)
    (hi : i < closes.length) :
    (obvContribs closes volumes).getD i 0 =
      (if closes.getD (i - 1) 0 < closes.getD i 0 then volumes.getD i 0
       else if closes.getD i 0 < closes.getD (i - 1) 0 then -(volumes.getD i 0)
       else 0) := by
  have hl : (obvContribs closes volumes).length = closes.length :=
    obvContribs_length closes volumes hlen
  obtain ⟨j, rfl⟩ : ∃ j, i = j + 1 := ⟨i - 1, by omega⟩
  rw [List.getD_eq_getElem _ _ (by omega)]
  simp only [obvContribs, List.getElem_zipWith, List.getElem_cons_succ, List.getElem_zip,
    List.getElem_map]
  rw [List.getD_eq_getElem _ _ (by omega : j + 1 - 1 < closes.length),
    List.getD_eq_getElem _ _ hi, List.getD_eq_getElem _ _ (by omega : j + 1 < volumes.length)]
  simp only [Nat.add_sub_cancel, PF.blt_fin_fin]
  by_cases hlt : closes[j] < closes[j + 1]
  · simp [hlt]
  · by_cases hgt : closes[j + 1] < closes[j] <;> simp [hlt, hgt]

/-- C5: the OBV column of `calculate_volume_indicators` has an entry at
every index; `OBV[0] = 0` (no prior bar, zero contribution), and for `i ≥ 1`
`OBV[i] = OBV[i−1] + sign(close[i] − close[i−1]) · volume[i]`. -/
theorem obv_spec (closes volumes : List ℚ) (hlen : volumes.length = closes.length) :
    (calculate_volume_indicators closes volumes).2.2.length = closes.length ∧
    (0 < closes.length → (calculate_volume_indicators closes volumes).2.2.getD 0 0 = 0) ∧
    (∀ i, 1 ≤ i → i < closes.length →
      (calculate_volume_indicators closes volumes).2.2.getD i 0 =
        (calculate_volume_indicators closes volumes).2.2.getD (i - 1) 0 +
          (if closes.getD (i - 1) 0 < closes.getD i 0 then volumes.getD i 0
           else if closes.getD i 0 < closes.getD (i - 1) 0 then -(volumes.getD i 0)
           else 0)) := by
  rw [calculate_volume_indicators_obv]
  have hcl : (obvContribs closes volumes).length = closes.length :=
    obvContribs_length closes volumes hlen
  refine ⟨by simp [cumsum, cumsumFrom_length, hcl], ?_, ?_⟩
  · intro h0
    rw [cumsum, cumsumFrom_getD _ _ _ (by omega)]
    rw [List.take_one]
    have h0' : 0 < (obvContribs closes volumes).length := by omega
    cases hh : obvContribs closes volumes with
    | nil => simp [hh] at h0'
    | cons x xs =>
      have : x = (obvContribs closes volumes).getD 0 0 := by simp [hh]
      rw [this, obvContribs_getD_zero closes volumes hlen h0] at hh ⊢
      simp [hh]
  · intro i h1 hi
    rw [cumsum, cumsumFrom_getD _ _ _ (by omega), cumsumFrom_getD _ _ _ (by omega),
      ← obvContribs_getD_succ closes volumes hlen i h1 hi]
    have hi1 : i - 1 + 1 = i := by omega
    rw [hi1, List.sum_take_succ _ i (by omega)]
    rw [List.getD_eq_getElem _ _ (by omega : i < (obvContribs closes volumes).length)]
    ring

/-- Concrete instance of C5 at `closes = [5, 7, 7, 3]`,
`volumes = [10, 20, 30, 40]`: the OBV recurrence at index 3 (a strict price
drop contributes `−volume`). -/
theorem obv_spec_witness :
    (([10, 20, 30, 40] : List ℚ).length = ([5, 7, 7, 3] : List ℚ).length ∧
      (1 : ℕ) ≤ 3 ∧ (3 : ℕ) < ([5, 7, 7, 3] : List ℚ).length) ∧
    (calculate_volume_indicators [5, 7, 7, 3] [10, 20, 30, 40]).2.2.getD 3 0 =
      (calculate_volume_indicators [5, 7, 7, 3] [10, 20, 30, 40]).2.2.getD (3 - 1) 0 +
        (if ([5, 7, 7, 3] : List ℚ).getD (3 - 1) 0 < ([5, 7, 7, 3] : List ℚ).getD 3 0
         then ([10, 20, 30, 40] : List ℚ).getD 3 0
         else if ([5, 7, 7, 3] : List ℚ).getD 3 0 < ([5, 7, 7, 3] : List ℚ).getD (3 - 1) 0
         then -(([10, 20, 30, 40] : List ℚ).getD 3 0)
         else 0) :=
  ⟨⟨by decide, by decide, by decide⟩,
    (obv_spec [5, 7, 7, 3] [10, 20, 30, 40] (by decide)).2.2 3 (by decide) (by decide)⟩

/-! ### RSI infrastructure (C6, C9) -/

theorem getD_of_getElem? {β : Type} (l : List β) (i : ℕ) (d x : β) (h : l[i]? = some x) :
    l.getD i d = x := by
  obtain ⟨hi, hx⟩ := List.getElem?_eq_some.mp h
  rw [List.getD_eq_getElem _ _ hi, hx]

theorem diff_length (xs : List ℚ) : (diff xs).length = xs.length := by
  simp only [diff, List.length_zipWith, List.length_cons, List.length_map]
  omega

theorem diff_getElem_zero (xs : List ℚ) (h : 0 < (diff xs).length) :
    (diff xs)[0] = PF.nan := by
  simp only [diff, List.getElem_zipWith, List.getElem_cons_zero]
  simp

theorem diff_getElem_succ (xs : List ℚ) (j : ℕ) (h : j + 1 < (diff xs).length) :
    (diff xs)[j + 1] = PF.fin (xs.getD (j + 1) 0 - xs.getD j 0) := by
  have hx : j + 1 < xs.length := by rw [diff_length] at h; exact h
  simp only [diff, List.getElem_zipWith, List.getElem_cons_succ, List.getElem_map]
  rw [PF.sub_fin_fin, List.getD_eq_getElem _ _ hx, List.getD_eq_getElem _ _ (by omega)]

theorem diff_cells (xs : List ℚ) (x : PF ℚ) (hx : x ∈ diff xs) :
    x = PF.nan ∨ ∃ a, x = PF.fin a := by
  obtain ⟨k, hk, rfl⟩ := List.mem_iff_getElem.mp hx
  cases k with
  | zero => exact Or.inl (diff_getElem_zero xs hk)
  | succ j => exact Or.inr ⟨_, diff_getElem_succ xs j hk⟩

theorem gainCell_fin_nonneg (d : PF ℚ) (hd : d = PF.nan ∨ ∃ a, d = PF.fin a) :
    ∃ a, gainCell d = PF.fin a ∧ 0 ≤ a := by
  rcases hd with rfl | ⟨a, rfl⟩
  · exact ⟨0, by simp [gainCell], le_refl 0⟩
  · by_cases h : (0 : ℚ) < a
    · exact ⟨a, by simp [gainCell, h], le_of_lt h⟩
    · exact ⟨0, by simp [gainCell, h], le_refl 0⟩

theorem lossCell_fin_nonneg (d : PF ℚ) (hd : d = PF.nan ∨ ∃ a, d = PF.fin a) :
    ∃ a, lossCell d = PF.fin a ∧ 0 ≤ a := by
  rcases hd with rfl | ⟨a, rfl⟩
  · exact ⟨0, by simp [lossCell, PF.neg], le_refl 0⟩
  · by_cases h : a < 0
    · exact ⟨-a, by simp [lossCell, h], by linarith⟩
    · exact ⟨0, by simp [lossCell, h, PF.neg], le_refl 0⟩

theorem window_subset {β : Type} (xs : List β) (w i : ℕ) : window xs w i ⊆ xs := by
  intro x hx
  exact (List.take_sublist _ _).subset ((List.drop_sublist _ _).subset hx)

theorem rollingMean_getD_short (w : ℕ) (xs : List (PF ℚ)) (i : ℕ) (hi : i < xs.length)
    (h : i + 1 < w) : (rollingMean w xs).getD i PF.nan = PF.nan := by
  have hc := rollingMean_getElem? w xs i hi
  rw [if_neg (fun hc' => by omega)] at hc
  exact getD_of_getElem? _ _ _ _ hc

theorem rollingMean_getD_fin (w : ℕ) (xs : List (PF ℚ)) (i : ℕ) (hw0 : 0 < w)
    (hw : w ≤ i + 1) (hi : i < xs.length)
    (hfin : ∀ x ∈ window xs w i, ∃ a, x = PF.fin a) :
    (rollingMean w xs).getD i PF.nan =
      PF.fin ((((window xs w i).map PF.toVal).sum) / (w : ℚ)) := by
  have hnon : (window xs w i).any PF.isNan = false := by
    rw [List.any_eq_false]
    intro x hx
    obtain ⟨a, rfl⟩ := hfin x hx
    simp
  have hc := rollingMean_getElem? w xs i hi
  rw [if_pos ⟨hw, by simp [hnon]⟩] at hc
  rw [getD_of_getElem? _ _ _ _ hc, PF.foldl_add_eq_fin _ _ hfin,
    PF.div_fin_fin_of_ne _ (Nat.cast_ne_zero.mpr (by omega) : ((w : ℚ)) ≠ 0), zero_add]

theorem calculate_rsi_length (closes : List ℚ) (w : ℕ) :
    (calculate_rsi closes w).length = closes.length := by
  simp [calculate_rsi, diff_length]

theorem calculate_rsi_getElem? (closes : List ℚ) (w i : ℕ) (hi : i < closes.length) :
    (calculate_rsi closes w)[i]? =
      some (rsiFromRS
        (((rollingMean w ((diff closes).map gainCell)).getD i PF.nan).div
          ((rollingMean w ((diff closes).map lossCell)).getD i PF.nan))) := by
  have hg : i < (rollingMean w ((diff closes).map gainCell)).length := by
    simp [diff_length, hi]
  have hl : i < (rollingMean w ((diff closes).map lossCell)).length := by
    simp [diff_length, hi]
  simp only [calculate_rsi]
  rw [List.getElem?_map, List.getElem?_zipWith', List.getElem?_eq_getElem hg,
    List.getElem?_eq_getElem hl]
  simp [List.getD_eq_getElem?_getD, List.getElem?_eq_getElem hg,
    List.getElem?_eq_getElem hl]

/-! ### C9 — flat prices make RSI undefined -/

/-- C9: when the trailing 14 close-to-close deltas at index `i ≥ 14` are all
exactly zero, both rolling means are `0`, `rs = 0/0` is the missing marker,
and RSI at `i` is the missing-value marker `nan` — not `100`, `50` or any
other number. -/
theorem rsi_flat_nan (closes : List ℚ) (i : ℕ) (h14 : 14 ≤ i) (hi : i < closes.length)
    (hflat : ∀ j, i - 13 ≤ j → j ≤ i → closes.getD j 0 = closes.getD (j - 1) 0) :
    (calculate_rsi closes)[i]? = some PF.nan := by
  rw [calculate_rsi_getElem? closes 14 i hi]
  have hw : (14 : ℕ) ≤ i + 1 := by omega
  have hdl : (diff closes).length = closes.length := diff_length closes
  have hdelta : ∀ k, i - 13 ≤ k → k ≤ i → (diff closes).getD k PF.nan = PF.fin 0 := by
    intro k hk1 hk2
    obtain ⟨j, rfl⟩ : ∃ j, k = j + 1 := ⟨k - 1, by omega⟩
    rw [List.getD_eq_getElem _ _ (by omega : j + 1 < (diff closes).length),
      diff_getElem_succ closes j (by omega)]
    have h := hflat (j + 1) hk1 hk2
    rw [Nat.add_sub_cancel] at h
    rw [h, sub_self]
  have hcell : ∀ f : PF ℚ → PF ℚ, f (PF.fin 0) = PF.fin 0 →
      (rollingMean 14 ((diff closes).map f)).getD i PF.nan = PF.fin 0 := by
    intro f hf
    have hlen : i < ((diff closes).map f).length := by simp [hdl, hi]
    have hmem : ∀ x ∈ window ((diff closes).map f) 14 i, x = PF.fin 0 := by
      intro x hx
      obtain ⟨j, hj, rfl⟩ := mem_window PF.nan _ 14 i hw hlen x hx
      rw [getD_map f (diff closes) _ PF.nan PF.nan (by rw [hdl]; omega),
        hdelta (i + 1 - 14 + j) (by omega) (by omega), hf]
    rw [rollingMean_getD_fin 14 _ i (by omega) hw hlen (fun x hx => ⟨0, hmem x hx⟩)]
    have hsum : ((window ((diff closes).map f) 14 i).map PF.toVal).sum = 0 := by
      apply List.sum_eq_zero
      intro x hx
      rw [List.mem_map] at hx
      obtain ⟨y, hy, rfl⟩ := hx
      rw [hmem y hy]
      rfl
    rw [hsum]
    norm_num
  rw [hcell gainCell (by simp [gainCell]), hcell lossCell (by simp [lossCell, PF.neg])]
  simp [rsiFromRS, PF.div_fin_fin]

/-- Concrete instance of C9: sixteen flat closes at 5; RSI at index 14 is
the missing marker. -/
theorem rsi_flat_nan_witness :
    ((14 : ℕ) ≤ 14 ∧ (14 : ℕ) < (List.replicate 16 (5 : ℚ)).length) ∧
    (calculate_rsi (List.replicate 16 (5 : ℚ)))[14]? = some PF.nan :=
  ⟨⟨by decide, by decide⟩,
    rsi_flat_nan (List.replicate 16 5) 14 (by decide) (by decide)
      (fun j h1 h2 => by interval_cases j <;> rfl)⟩

/-! ### C6 — RSI bounds and saturation -/

theorem rsiFromRS_nan : rsiFromRS PF.nan = PF.nan := by simp [rsiFromRS]

theorem rsiFromRS_inf : rsiFromRS PF.inf = PF.fin 100 := by simp [rsiFromRS]

theorem rsiFromRS_fin (r : ℚ) (h : 1 + r ≠ 0) :
    rsiFromRS (PF.fin r) = PF.fin (100 - 100 / (1 + r)) := by
  simp [rsiFromRS, PF.div_fin_fin_of_ne _ h]

theorem lossCell_of_nonneg (a b : ℚ) (h : b ≤ a) : lossCell (PF.fin (a - b)) = PF.fin 0 := by
  have hc : (PF.fin (a - b)).blt (PF.fin 0) = false := by
    simp only [PF.blt_fin_fin, decide_eq_false_iff_not, not_lt]
    linarith
  unfold lossCell
  rw [hc]
  simp [PF.neg]

theorem gainCell_of_pos (a b : ℚ) (h : b < a) :
    gainCell (PF.fin (a - b)) = PF.fin (a - b) := by
  have hc : (PF.fin 0).blt (PF.fin (a - b)) = true := by
    simp only [PF.blt_fin_fin, decide_eq_true_eq]
    linarith
  unfold gainCell
  rw [hc]
  simp

theorem windowCells_fin_nonneg (f : PF ℚ → PF ℚ)
    (hf : ∀ d, (d = PF.nan ∨ ∃ a, d = PF.fin a) → ∃ a, f d = PF.fin a ∧ 0 ≤ a)
    (closes : List ℚ) (w i : ℕ) :
    ∀ x ∈ window ((diff closes).map f) w i, ∃ a, x = PF.fin a ∧ 0 ≤ a := by
  intro x hx
  have hx' := window_subset _ _ _ hx
  rw [List.mem_map] at hx'
  obtain ⟨d, hd, rfl⟩ := hx'
  exact hf d (diff_cells closes d hd)

theorem rollingMean_diffmap_value (f : PF ℚ → PF ℚ)
    (hf : ∀ d, (d = PF.nan ∨ ∃ a, d = PF.fin a) → ∃ a, f d = PF.fin a ∧ 0 ≤ a)
    (closes : List ℚ) (i : ℕ) (hw : 14 ≤ i + 1) (hi : i < closes.length) :
    (rollingMean 14 ((diff closes).map f)).getD i PF.nan =
        PF.fin ((((window ((diff closes).map f) 14 i).map PF.toVal).sum) / (14 : ℚ)) ∧
      0 ≤ (((window ((diff closes).map f) 14 i).map PF.toVal).sum) / (14 : ℚ) := by
  have hlen : i < ((diff closes).map f).length := by simp [diff_length, hi]
  have hcells := windowCells_fin_nonneg f hf closes 14 i
  constructor
  · exact rollingMean_getD_fin 14 _ i (by omega) hw hlen
      (fun x hx => ⟨(hcells x hx).choose, (hcells x hx).choose_spec.1⟩)
  · apply div_nonneg _ (by norm_num)
    apply List.sum_nonneg
    intro a ha
    rw [List.mem_map] at ha
    obtain ⟨y, hy, rfl⟩ := ha
    obtain ⟨b, rfl, hb⟩ := hcells y hy
    simpa using hb

/-- C6: wherever `RSI(14)` is a finite value it lies in the closed interval
`[0, 100]`; and over a trailing window with only non-negative deltas, at
least one of them strictly positive (gains but no losses), the zero mean
loss makes `rs` infinite and RSI saturates at exactly `100`. -/
theorem rsi_bounded (closes : List ℚ) (i : ℕ) :
    (∀ q : ℚ, (calculate_rsi closes)[i]? = some (PF.fin q) → 0 ≤ q ∧ q ≤ 100) ∧
    (14 ≤ i → i < closes.length →
      (∀ j, i - 13 ≤ j → j ≤ i → closes.getD (j - 1) 0 ≤ closes.getD j 0) →
      (∃ j, i - 13 ≤ j ∧ j ≤ i ∧ closes.getD (j - 1) 0 < closes.getD j 0) →
      (calculate_rsi closes)[i]? = some (PF.fin 100)) := by
  constructor
  · intro q hq
    by_cases hi : i < closes.length
    · rw [calculate_rsi_getElem? closes 14 i hi] at hq
      by_cases hw : 14 ≤ i + 1
      · obtain ⟨hgv, hgpos⟩ :=
          rollingMean_diffmap_value gainCell gainCell_fin_nonneg closes i hw hi
        obtain ⟨hlv, hlpos⟩ :=
          rollingMean_diffmap_value lossCell lossCell_fin_nonneg closes i hw hi
        set g := (((window ((diff closes).map gainCell) 14 i).map PF.toVal).sum) / (14 : ℚ)
        set l := (((window ((diff closes).map lossCell) 14 i).map PF.toVal).sum) / (14 : ℚ)
        rw [hgv, hlv] at hq
        by_cases hl0 : l = 0
        · rw [hl0] at hq
          by_cases hg0 : g = 0
          · rw [hg0] at hq
            rw [show (PF.fin (0 : ℚ)).div (PF.fin 0) = PF.nan by
              simp [PF.div_fin_fin], rsiFromRS_nan] at hq
            simp at hq
          · have hgpos' : 0 < g := lt_of_le_of_ne hgpos (Ne.symm hg0)
            rw [show (PF.fin g).div (PF.fin 0) = PF.inf by
              simp [PF.div_fin_fin, hg0, hgpos'], rsiFromRS_inf] at hq
            have : q = 100 := by simpa using hq.symm
            constructor <;> simp [this]
        · have hlpos' : 0 < l := lt_of_le_of_ne hlpos (Ne.symm hl0)
          rw [PF.div_fin_fin_of_ne g hl0] at hq
          have hr : 0 ≤ g / l := div_nonneg hgpos (le_of_lt hlpos')
          have h1r : (0 : ℚ) < 1 + g / l := by linarith
          rw [rsiFromRS_fin _ (ne_of_gt h1r)] at hq
          have hqe : q = 100 - 100 / (1 + g / l) := by simpa using hq.symm
          have hdiv_le : 100 / (1 + g / l) ≤ 100 := by
            apply div_le_self (by norm_num)
            linarith
          have hdiv_pos : 0 < 100 / (1 + g / l) := by positivity
          constructor <;> [linarith [hdiv_le]; linarith [hdiv_pos]]
      · have hlen : i < ((diff closes).map gainCell).length := by
          simp [diff_length, hi]
        rw [rollingMean_getD_short 14 _ i hlen (by omega)] at hq
        rw [show (PF.nan : PF ℚ).div _ = PF.nan from PF.div_nan _, rsiFromRS_nan] at hq
        simp at hq
    · rw [List.getElem?_eq_none (by rw [calculate_rsi_length]; omega)] at hq
      simp at hq
  · intro h14 hi hmono ⟨js, hjs1, hjs2, hjs⟩
    rw [calculate_rsi_getElem? closes 14 i hi]
    have hw : (14 : ℕ) ≤ i + 1 := by omega
    have hdl : (diff closes).length = closes.length := diff_length closes
    have hdelta : ∀ k, i - 13 ≤ k → k ≤ i →
        (diff closes).getD k PF.nan = PF.fin (closes.getD k 0 - closes.getD (k - 1) 0) := by
      intro k hk1 hk2
      obtain ⟨j, rfl⟩ : ∃ j, k = j + 1 := ⟨k - 1, by omega⟩
      rw [List.getD_eq_getElem _ _ (by omega : j + 1 < (diff closes).length),
        diff_getElem_succ closes j (by omega), Nat.add_sub_cancel]
    -- the mean loss is zero: no negative delta in the window
    have hlloss : (rollingMean 14 ((diff closes).map lossCell)).getD i PF.nan = PF.fin 0 := by
      have hlen : i < ((diff closes).map lossCell).length := by simp [hdl, hi]
      have hmem : ∀ x ∈ window ((diff closes).map lossCell) 14 i, x = PF.fin 0 := by
        intro x hx
        obtain ⟨j, hj, rfl⟩ := mem_window PF.nan _ 14 i hw hlen x hx
        rw [getD_map lossCell (diff closes) _ PF.nan PF.nan (by rw [hdl]; omega),
          hdelta (i + 1 - 14 + j) (by omega) (by omega)]
        exact lossCell_of_nonneg _ _ (hmono (i + 1 - 14 + j) (by omega) (by omega))
      rw [rollingMean_getD_fin 14 _ i (by omega) hw hlen (fun x hx => ⟨0, hmem x hx⟩)]
      have hsum : ((window ((diff closes).map lossCell) 14 i).map PF.toVal).sum = 0 := by
        apply List.sum_eq_zero
        intro x hx
        rw [List.mem_map] at hx
        obtain ⟨y, hy, rfl⟩ := hx
        rw [hmem y hy]
        rfl
      rw [hsum]
      norm_num
    -- the mean gain is strictly positive: a strict rise sits in the window
    obtain ⟨hgv, hgpos⟩ :=
      rollingMean_diffmap_value gainCell gainCell_fin_nonneg closes i hw hi
    set S := (((window ((diff closes).map gainCell) 14 i).map PF.toVal).sum) with hS
    have hlen : i < ((diff closes).map gainCell).length := by simp [hdl, hi]
    have hwl : (window ((diff closes).map gainCell) 14 i).length = 14 :=
      window_length _ 14 i hw hlen
    have hpos : 0 < S := by
      set ds := closes.getD js 0 - closes.getD (js - 1) 0 with hds
      have hds_pos : 0 < ds := by rw [hds]; linarith
      have hcell : (window ((diff closes).map gainCell) 14 i).getD (js - (i - 13)) PF.nan
          = PF.fin ds := by
        rw [window_getD PF.nan _ 14 i _ hw hlen (by omega)]
        have hidx : i + 1 - 14 + (js - (i - 13)) = js := by omega
        rw [hidx, getD_map gainCell (diff closes) _ PF.nan PF.nan (by rw [hdl]; omega),
          hdelta js hjs1 hjs2, gainCell_of_pos _ _ hjs]
      have hmem : PF.fin ds ∈ window ((diff closes).map gainCell) 14 i := by
        rw [← hcell, List.getD_eq_getElem _ _ (by omega)]
        exact List.getElem_mem _
      have hmem' : ds ∈ (window ((diff closes).map gainCell) 14 i).map PF.toVal := by
        rw [List.mem_map]
        exact ⟨PF.fin ds, hmem, rfl⟩
      have hnn : ∀ a ∈ (window ((diff closes).map gainCell) 14 i).map PF.toVal, 0 ≤ a := by
        intro a ha
        rw [List.mem_map] at ha
        obtain ⟨y, hy, rfl⟩ := ha
        obtain ⟨b, rfl, hb⟩ :=
          windowCells_fin_nonneg gainCell gainCell_fin_nonneg closes 14 i y hy
        simpa using hb
      have := List.single_le_sum hnn ds hmem'
      calc (0 : ℚ) < ds := hds_pos
        _ ≤ S := this
    rw [hgv, hlloss]
    have hSne : S / (14 : ℚ) ≠ 0 := by positivity
    have hSpos : 0 < S / (14 : ℚ) := by positivity
    rw [show (PF.fin (S / (14 : ℚ))).div (PF.fin 0) = PF.inf by
      simp [PF.div_fin_fin, hSne, hSpos], rsiFromRS_inf]

/-- Concrete instance of C6: strictly rising closes `0, 1, …, 15`; RSI at
index 14 is finite, sits in `[0, 100]`, and in fact saturates at `100`. -/
theorem rsi_bounded_witness :
    (0 ≤ (100 : ℚ) ∧ (100 : ℚ) ≤ 100) ∧
    (calculate_rsi [0, 1, 2, 3, 4, 5, 6, 7, 8, 9, 10, 11, 12, 13, 14, 15])[14]? =
      some (PF.fin 100) := by
  have hsat := (rsi_bounded [0, 1, 2, 3, 4, 5, 6, 7, 8, 9, 10, 11, 12, 13, 14, 15] 14).2
    (by decide) (by decide)
    (fun j h1 h2 => by interval_cases j <;> decide)
    ⟨1, by decide, by decide, by decide⟩
  exact ⟨(rsi_bounded _ 14).1 100 hsat, hsat⟩

/-! ### C7 — Bollinger band ordering -/

@[simp] theorem PF.map_fin {α β : Type} (f : α → β) (a : α) :
    (PF.fin a).map f = PF.fin (f a) := rfl

@[simp] theorem PF.map_nan {α β : Type} (f : α → β) : (PF.nan : PF α).map f = PF.nan := rfl

@[simp] theorem rollingStd_length (w : ℕ) (xs : List (PF ℚ)) :
    (rollingStd w xs).length = xs.length := by
  simp [rollingStd]

theorem rollingStd_getElem? (w : ℕ) (xs : List (PF ℚ)) (i : ℕ) (hi : i < xs.length) :
    (rollingStd w xs)[i]? =
      some (if w ≤ i + 1 ∧ ¬(window xs w i).any PF.isNan then
              PF.fin (Real.sqrt (((sampleVar ((window xs w i).map PF.toVal)) : ℚ) : ℝ))
            else PF.nan) := by
  simp [rollingStd, List.getElem?_range, hi]

theorem calculate_sma_length (closes : List ℚ) (w : ℕ) :
    (calculate_sma closes w).length = closes.length := by
  simp [calculate_sma]

/-- C7: at every index where the Bollinger upper, middle and lower bands are
all defined, `lower ≤ middle ≤ upper` (the offset from the middle band is
`±2σ` with `σ = √(sample variance) ≥ 0`). -/
theorem bollinger_ordered (closes : List ℚ) (i : ℕ) (u l : ℝ) (m : ℚ)
    (hu : (calculate_bollinger_bands closes).1[i]? = some (PF.fin u))
    (hm : (calculate_bollinger_bands closes).2.1[i]? = some (PF.fin m))
    (hl : (calculate_bollinger_bands closes).2.2[i]? = some (PF.fin l)) :
    l ≤ (m : ℝ) ∧ (m : ℝ) ≤ u := by
  simp only [calculate_bollinger_bands] at hu hm hl
  rw [List.getElem?_zipWith_eq_some] at hu hl
  obtain ⟨s, d, hs, hd, hf⟩ := hu
  obtain ⟨s', d', hs', hd', hf'⟩ := hl
  have hs2 : s' = s := by
    have h := hs'.symm.trans hs
    rwa [Option.some.injEq] at h
  have hd2 : d' = d := by
    have h := hd'.symm.trans hd
    rwa [Option.some.injEq] at h
  rw [hs2, hd2] at hf'
  have hsm : s = PF.fin m := by
    have h := hs.symm.trans hm
    rwa [Option.some.injEq] at h
  rw [hsm] at hf hf'
  have hi : i < (closes.map PF.fin).length := by
    have h := (List.getElem?_eq_some.mp hd).1
    simpa using h
  rw [rollingStd_getElem? 20 _ i hi, Option.some.injEq] at hd
  by_cases hcond : 20 ≤ i + 1 ∧ ¬(window (closes.map PF.fin) 20 i).any PF.isNan
  · rw [if_pos hcond] at hd
    set v := Real.sqrt
      (((sampleVar ((window (closes.map PF.fin) 20 i).map PF.toVal)) : ℚ) : ℝ) with hv
    have hvnn : 0 ≤ v := Real.sqrt_nonneg _
    rw [← hd] at hf hf'
    simp only [PF.map_fin, PF.mul_fin_fin, PF.add_fin_fin, PF.sub_fin_fin] at hf hf'
    have hu' : (m : ℝ) + v * 2 = u := PF.fin.injEq _ _ ▸ hf
    have hl' : (m : ℝ) - v * 2 = l := PF.fin.injEq _ _ ▸ hf'
    constructor <;> linarith
  · rw [if_neg hcond] at hd
    rw [← hd] at hf
    simp only [PF.mul_nan, PF.map_fin] at hf
    rw [PF.add_fin_nan] at hf
    cases hf

/-- Concrete instance of C7: twenty flat closes at 1 give
`upper = middle = lower = 1` at index 19. -/
theorem bollinger_ordered_witness :
    ((calculate_bollinger_bands (List.replicate 20 (1 : ℚ))).1[19]? =
        some (PF.fin ((1 : ℚ) : ℝ)) ∧
      (calculate_bollinger_bands (List.replicate 20 (1 : ℚ))).2.1[19]? =
        some (PF.fin (1 : ℚ)) ∧
      (calculate_bollinger_bands (List.replicate 20 (1 : ℚ))).2.2[19]? =
        some (PF.fin ((1 : ℚ) : ℝ))) ∧
    (((1 : ℚ) : ℝ) ≤ ((1 : ℚ) : ℝ) ∧ ((1 : ℚ) : ℝ) ≤ ((1 : ℚ) : ℝ)) := by
  have hwrep : window ((List.replicate 20 (1 : ℚ)).map PF.fin) 20 19 =
      List.replicate 20 (PF.fin (1 : ℚ)) := by
    rw [List.map_replicate, window_eq_drop_take _ _ _ (by norm_num)]
    simp
  have hvar : sampleVar (List.replicate 20 (1 : ℚ)) = 0 := by
    simp [sampleVar, List.sum_replicate]
    norm_num
  have hstd : (rollingStd 20 ((List.replicate 20 (1 : ℚ)).map PF.fin))[19]? =
      some (PF.fin (0 : ℝ)) := by
    rw [rollingStd_getElem? 20 _ 19 (by simp), hwrep,
      if_pos ⟨by norm_num, by simp⟩, List.map_replicate]
    simp only [PF.toVal_fin, hvar]
    norm_num
  have hsma : (calculate_sma (List.replicate 20 (1 : ℚ)) 20)[19]? =
      some (PF.fin (1 : ℚ)) := by
    rw [calculate_sma, rollingMean_getElem? 20 _ 19 (by simp), hwrep,
      if_pos ⟨by norm_num, by simp⟩,
      PF.foldl_add_eq_fin _ _
        (fun x hx => ⟨1, List.eq_of_mem_replicate hx⟩),
      PF.div_fin_fin_of_ne _ (by norm_num)]
    congr 2
    rw [List.map_replicate]
    simp [List.sum_replicate]
    norm_num
  have hm : (calculate_bollinger_bands (List.replicate 20 (1 : ℚ))).2.1[19]? =
      some (PF.fin (1 : ℚ)) := by
    simp only [calculate_bollinger_bands]
    exact hsma
  have hu : (calculate_bollinger_bands (List.replicate 20 (1 : ℚ))).1[19]? =
      some (PF.fin ((1 : ℚ) : ℝ)) := by
    simp only [calculate_bollinger_bands]
    rw [List.getElem?_zipWith_eq_some]
    refine ⟨PF.fin 1, PF.fin 0, hsma, hstd, ?_⟩
    simp
  have hl : (calculate_bollinger_bands (List.replicate 20 (1 : ℚ))).2.2[19]? =
      some (PF.fin ((1 : ℚ) : ℝ)) := by
    simp only [calculate_bollinger_bands]
    rw [List.getElem?_zipWith_eq_some]
    refine ⟨PF.fin 1, PF.fin 0, hsma, hstd, ?_⟩
    simp
  exact ⟨⟨hu, hm, hl⟩,
    bollinger_ordered (List.replicate 20 (1 : ℚ)) 19 ((1 : ℚ) : ℝ) ((1 : ℚ) : ℝ) 1 hu hm hl⟩

/-! ### C2 — gainer / loser classification -/

theorem PF.blt_ninf_fin (a : ℚ) : (PF.ninf : PF ℚ).blt (PF.fin a) = true := rfl

theorem PF.blt_fin_ninf (a : ℚ) : (PF.fin a).blt (PF.ninf : PF ℚ) = false := rfl

theorem PF.blt_inf (x : PF ℚ) : (PF.inf : PF ℚ).blt x = false := by cases x <;> rfl

theorem PF.mul_inf_fin_pos (b : ℚ) (h : 0 < b) : (PF.inf : PF ℚ).mul (PF.fin b) = PF.inf := by
  simp [PF.mul, ne_of_gt h, h]

theorem PF.mul_ninf_fin_pos (b : ℚ) (h : 0 < b) :
    (PF.ninf : PF ℚ).mul (PF.fin b) = PF.ninf := by
  simp [PF.mul, ne_of_gt h, h]

theorem classifyRow_gainer_change {dr : PF ℚ} (h : (PF.fin (1 / 50)).blt dr = true) :
    (PF.fin (2 : ℚ)).blt (dr.mul (PF.fin 100)) = true := by
  cases dr with
  | nan => simp at h
  | inf => rw [PF.mul_inf_fin_pos 100 (by norm_num)]; rfl
  | ninf => rw [PF.blt_fin_ninf] at h; cases h
  | fin q =>
    rw [PF.blt_fin_fin, decide_eq_true_eq] at h
    rw [PF.mul_fin_fin, PF.blt_fin_fin, decide_eq_true_eq]
    linarith

theorem classifyRow_loser_change {dr : PF ℚ} (h : dr.blt (PF.fin (-(1 / 50))) = true) :
    (dr.mul (PF.fin 100)).blt (PF.fin (-2 : ℚ)) = true := by
  cases dr with
  | nan => simp at h
  | inf => rw [PF.blt_inf] at h; cases h
  | ninf => rw [PF.mul_ninf_fin_pos 100 (by norm_num)]; rfl
  | fin q =>
    rw [PF.blt_fin_fin, decide_eq_true_eq] at h
    rw [PF.mul_fin_fin, PF.blt_fin_fin, decide_eq_true_eq]
    linarith

/-- C2: a participating symbol (defined last-bar daily return) is classified
a gainer iff its return is strictly above `+2%` and a loser iff strictly
below `−2%`; the two classes are mutually exclusive by construction of the
`if/elif`, and a return of exactly `±2%` is classified as neither.
Consequently every entry of the final gainers list has a change above `+2`
percent and every loser entry below `−2` percent. -/
theorem gainer_loser_classification :
    (∀ dr : PF ℚ, dr.isNan = false →
      ((classifyRow dr = some true ↔ (PF.fin (1 / 50)).blt dr = true) ∧
       (classifyRow dr = some false ↔ dr.blt (PF.fin (-(1 / 50))) = true) ∧
       ¬(classifyRow dr = some true ∧ classifyRow dr = some false) ∧
       (dr = PF.fin (1 / 50) → classifyRow dr = none) ∧
       (dr = PF.fin (-(1 / 50)) → classifyRow dr = none))) ∧
    (∀ (vm pt : ℚ) (dd : List (String × List AnnRow)),
      (∀ info ∈ (generate_market_summary vm pt dd).gainers,
        (PF.fin (2 : ℚ)).blt info.change = true) ∧
      (∀ info ∈ (generate_market_summary vm pt dd).losers,
        info.change.blt (PF.fin (-2 : ℚ)) = true)) := by
  have hexcl : ∀ dr : PF ℚ, (PF.fin (1 / 50)).blt dr = true →
      dr.blt (PF.fin (-(1 / 50))) = true → False := by
    intro dr h1 h2
    cases dr with
    | nan => simp at h1
    | inf => rw [PF.blt_inf] at h2; cases h2
    | ninf => rw [PF.blt_fin_ninf] at h1; cases h1
    | fin q =>
      rw [PF.blt_fin_fin, decide_eq_true_eq] at h1 h2
      linarith
  constructor
  · intro dr _
    refine ⟨?_, ?_, ?_, ?_, ?_⟩
    · constructor
      · intro h
        by_cases h1 : (PF.fin (1 / 50)).blt dr = true
        · exact h1
        · exfalso
          rw [classifyRow, if_neg h1] at h
          by_cases h2 : dr.blt (PF.fin (-(1 / 50))) = true
          · rw [if_pos h2] at h; simp at h
          · rw [if_neg h2] at h; simp at h
      · intro h1
        rw [classifyRow, if_pos h1]
    · constructor
      · intro h
        by_cases h1 : (PF.fin (1 / 50)).blt dr = true
        · rw [classifyRow, if_pos h1] at h; simp at h
        · rw [classifyRow, if_neg h1] at h
          by_cases h2 : dr.blt (PF.fin (-(1 / 50))) = true
          · exact h2
          · rw [if_neg h2] at h; simp at h
      · intro h2
        have h1 : ¬(PF.fin (1 / 50)).blt dr = true := fun hc => hexcl dr hc h2
        rw [classifyRow, if_neg h1, if_pos h2]
    · rintro ⟨ht, hf⟩
      rw [ht] at hf
      simp at hf
    · rintro rfl
      have h1 : (PF.fin ((1 : ℚ) / 50)).blt (PF.fin (1 / 50)) = false := by
        rw [PF.blt_fin_fin, decide_eq_false_iff_not]
        exact lt_irrefl _
      have h2 : (PF.fin ((1 : ℚ) / 50)).blt (PF.fin (-(1 / 50))) = false := by
        rw [PF.blt_fin_fin, decide_eq_false_iff_not]
        norm_num
      rw [classifyRow, if_neg (by rw [h1]; simp), if_neg (by rw [h2]; simp)]
    · rintro rfl
      have h1 : (PF.fin ((1 : ℚ) / 50)).blt (PF.fin (-(1 / 50))) = false := by
        rw [PF.blt_fin_fin, decide_eq_false_iff_not]
        norm_num
      have h2 : (PF.fin (-((1 : ℚ) / 50))).blt (PF.fin (-(1 / 50))) = false := by
        rw [PF.blt_fin_fin, decide_eq_false_iff_not]
        exact lt_irrefl _
      rw [classifyRow, if_neg (by rw [h1]; simp), if_neg (by rw [h2]; simp)]
  · intro vm pt dd
    constructor
    · intro info hmem
      have hmem' : info ∈ gainersRaw dd := by
        have h1 : info ∈ List.insertionSort gainerOrd (gainersRaw dd) :=
          (List.take_sublist _ _).subset hmem
        exact (List.perm_insertionSort gainerOrd (gainersRaw dd)).subset h1
      rw [gainersRaw, List.mem_filterMap] at hmem'
      obtain ⟨sf, -, hsf⟩ := hmem'
      cases hr : includedRow? sf.2 with
      | none => rw [hr] at hsf; simp at hsf
      | some r =>
        rw [hr] at hsf
        rw [Option.some_bind] at hsf
        by_cases hcl : classifyRow r.daily_return = some true
        · rw [if_pos hcl] at hsf
          have hblt : (PF.fin (1 / 50)).blt r.daily_return = true := by
            by_contra hc
            rw [classifyRow, if_neg hc] at hcl
            by_cases h2 : r.daily_return.blt (PF.fin (-(1 / 50))) = true
            · rw [if_pos h2] at hcl; simp at hcl
            · rw [if_neg h2] at hcl; simp at hcl
          obtain rfl : rowInfo sf.1 r = info := by simpa using hsf
          exact classifyRow_gainer_change hblt
        · rw [if_neg hcl] at hsf
          simp at hsf
    · intro info hmem
      have hmem' : info ∈ losersRaw dd := by
        have h1 : info ∈ List.insertionSort loserOrd (losersRaw dd) :=
          (List.take_sublist _ _).subset hmem
        exact (List.perm_insertionSort loserOrd (losersRaw dd)).subset h1
      rw [losersRaw, List.mem_filterMap] at hmem'
      obtain ⟨sf, -, hsf⟩ := hmem'
      cases hr : includedRow? sf.2 with
      | none => rw [hr] at hsf; simp at hsf
      | some r =>
        rw [hr] at hsf
        rw [Option.some_bind] at hsf
        by_cases hcl : classifyRow r.daily_return = some false
        · rw [if_pos hcl] at hsf
          have hblt : r.daily_return.blt (PF.fin (-(1 / 50))) = true := by
            by_cases h1 : (PF.fin (1 / 50)).blt r.daily_return = true
            · rw [classifyRow, if_pos h1] at hcl; simp at hcl
            · rw [classifyRow, if_neg h1] at hcl
              by_cases h2 : r.daily_return.blt (PF.fin (-(1 / 50))) = true
              · exact h2
              · rw [if_neg h2] at hcl; simp at hcl
          obtain rfl : rowInfo sf.1 r = info := by simpa using hsf
          exact classifyRow_loser_change hblt
        · rw [if_neg hcl] at hsf
          simp at hsf

/-- Concrete instance of C2: a `3%` return is a gainer and `5%` beats the
`+2`-percent change bound; exactly `+2%` and exactly `−2%` are classified as
neither gainer nor loser. -/
theorem gainer_loser_classification_witness :
    ((PF.fin ((3 : ℚ) / 100)).isNan = false ∧
      classifyRow (PF.fin ((3 : ℚ) / 100)) = some true) ∧
    classifyRow (PF.fin ((1 : ℚ) / 50)) = none ∧
    classifyRow (PF.fin (-((1 : ℚ) / 50))) = none :=
  ⟨⟨rfl,
    ((gainer_loser_classification.1 (PF.fin ((3 : ℚ) / 100)) rfl).1).mpr
      (by rw [PF.blt_fin_fin, decide_eq_true_eq]; norm_num)⟩,
    (gainer_loser_classification.1 (PF.fin ((1 : ℚ) / 50)) rfl).2.2.2.1 rfl,
    (gainer_loser_classification.1 (PF.fin (-((1 : ℚ) / 50))) rfl).2.2.2.2 rfl⟩

/-! ### C3 — ranking, ordering and truncation -/

theorem PF.sle_total (x y : PF ℚ) : sle x y = true ∨ sle y x = true := by
  cases x <;> cases y <;> simp [sle] <;> exact le_total _ _

theorem PF.sle_trans {x y z : PF ℚ} (h1 : sle x y = true) (h2 : sle y z = true) :
    sle x z = true := by
  cases x <;> cases y <;> cases z <;> simp_all [sle] <;> linarith

instance : IsTotal SymbolInfo gainerOrd :=
  ⟨fun a b => (PF.sle_total a.change b.change).symm⟩

instance : IsTrans SymbolInfo gainerOrd :=
  ⟨fun _ _ _ h1 h2 => PF.sle_trans h2 h1⟩

instance : IsTotal SymbolInfo loserOrd :=
  ⟨fun a b => PF.sle_total a.change b.change⟩

instance : IsTrans SymbolInfo loserOrd :=
  ⟨fun _ _ _ h1 h2 => PF.sle_trans h1 h2⟩

instance : IsTotal SymbolInfo highVolumeOrd :=
  ⟨fun a b => (PF.sle_total a.volume_ratio b.volume_ratio).symm⟩

instance : IsTrans SymbolInfo highVolumeOrd :=
  ⟨fun _ _ _ h1 h2 => PF.sle_trans h2 h1⟩

/-- A minimal processed row with the given daily return, close 10 and
volume 1000 (every other cell keeps its `Inhabited` placeholder); used to
build concrete report inputs. -/
def testRow (dr : PF ℚ) : AnnRow :=
  { (default : AnnRow) with daily_return := dr, close := 10, volume := 1000 }

/-- Twelve symbols with twelve distinct daily returns, all above the `+2%`
threshold, in scrambled order. -/
def dd12 : List (String × List AnnRow) :=
  [("A", [testRow (PF.fin (3 / 100))]),
   ("B", [testRow (PF.fin (5 / 100))]),
   ("C", [testRow (PF.fin (4 / 100))]),
   ("D", [testRow (PF.fin (14 / 100))]),
   ("E", [testRow (PF.fin (7 / 100))]),
   ("F", [testRow (PF.fin (6 / 100))]),
   ("G", [testRow (PF.fin (9 / 100))]),
   ("H", [testRow (PF.fin (8 / 100))]),
   ("I", [testRow (PF.fin (11 / 100))]),
   ("J", [testRow (PF.fin (10 / 100))]),
   ("K", [testRow (PF.fin (13 / 100))]),
   ("L", [testRow (PF.fin (12 / 100))])]

set_option maxRecDepth 8000 in
/-- C3: in every market summary the gainers are sorted by change
(`= daily return × 100`) descending, the losers ascending and the
high-volume symbols by volume ratio descending, each list truncated to at
most 10 entries; and on twelve symbols with distinct returns all above
`+2%` the gainers list is exactly the ten highest returns in descending
order. -/
theorem market_summary_ranking :
    (∀ (vm pt : ℚ) (dd : List (String × List AnnRow)),
      List.Sorted gainerOrd (generate_market_summary vm pt dd).gainers ∧
      (generate_market_summary vm pt dd).gainers.length ≤ 10 ∧
      List.Sorted loserOrd (generate_market_summary vm pt dd).losers ∧
      (generate_market_summary vm pt dd).losers.length ≤ 10 ∧
      List.Sorted highVolumeOrd (generate_market_summary vm pt dd).high_volume ∧
      (generate_market_summary vm pt dd).high_volume.length ≤ 10) ∧
    (generate_market_summary 2 5 dd12).gainers =
      [⟨"D", 10, PF.fin 14, 1000, PF.nan⟩, ⟨"K", 10, PF.fin 13, 1000, PF.nan⟩,
       ⟨"L", 10, PF.fin 12, 1000, PF.nan⟩, ⟨"I", 10, PF.fin 11, 1000, PF.nan⟩,
       ⟨"J", 10, PF.fin 10, 1000, PF.nan⟩, ⟨"G", 10, PF.fin 9, 1000, PF.nan⟩,
       ⟨"H", 10, PF.fin 8, 1000, PF.nan⟩, ⟨"E", 10, PF.fin 7, 1000, PF.nan⟩,
       ⟨"F", 10, PF.fin 6, 1000, PF.nan⟩, ⟨"B", 10, PF.fin 5, 1000, PF.nan⟩] := by
  constructor
  · intro vm pt dd
    refine ⟨?_, ?_, ?_, ?_, ?_, ?_⟩ <;> simp only [generate_market_summary] <;>
      first
        | exact List.Pairwise.sublist (List.take_sublist _ _)
            (List.sorted_insertionSort _ _)
        | (rw [List.length_take]; omega)
  · with_unfolding_all decide

/-! ### C10 — one-bar series report zero volume change -/

theorem addIndicators_length (bars : List Bar) :
    (addIndicators bars).length = bars.length := by
  simp [addIndicators, List.length_insertionSort]

theorem generate_symbol_analysis_single (s : String) (r : AnnRow) :
    (generate_symbol_analysis s [r]).map SymbolAnalysis.volume_change = some 0 := by
  simp only [generate_symbol_analysis, List.getLast?_singleton, Option.map_some']
  simp only [List.length_singleton, lt_irrefl, if_false]
  by_cases h : 0 < r.volume
  · simp [h]
  · simp [h]

/-- C10: for every one-bar series the narrative takes the last bar itself
as the "previous day" bar, so the reported `volume_change` is exactly `0`,
whatever the bar's volume. -/
theorem volume_change_single_bar (s : String) (b : Bar) :
    (generate_symbol_analysis s (addIndicators [b])).map SymbolAnalysis.volume_change =
      some 0 := by
  have hl : (addIndicators [b]).length = 1 := by
    rw [addIndicators_length]
    rfl
  obtain ⟨r, hr⟩ : ∃ r, addIndicators [b] = [r] := by
    cases h : addIndicators [b] with
    | nil => rw [h] at hl; simp at hl
    | cons x xs =>
      rw [h] at hl
      have hxs : xs.length = 0 := by simpa using hl
      rw [List.length_eq_zero] at hxs
      subst hxs
      exact ⟨x, rfl⟩
  rw [hr]
  exact generate_symbol_analysis_single s r

/-! ### C8 — trailing 7/30-day return statistics -/

theorem pctChange_length (xs : List ℚ) : (pctChange xs).length = xs.length := by
  simp only [pctChange, List.length_zipWith, List.length_cons, List.length_map]
  omega

theorem pctChange_getElem_zero (xs : List ℚ) (h : 0 < (pctChange xs).length) :
    (pctChange xs)[0] = PF.nan := by
  simp only [pctChange, List.getElem_zipWith, List.getElem_cons_zero]
  simp

theorem pctChange_getElem_succ (xs : List ℚ) (j : ℕ) (h : j + 1 < (pctChange xs).length)
    (hp : xs.getD j 0 ≠ 0) :
    (pctChange xs)[j + 1] =
      PF.fin ((xs.getD (j + 1) 0 - xs.getD j 0) / xs.getD j 0) := by
  have hx : j + 1 < xs.length := by rw [pctChange_length] at h; exact h
  have hj : j < xs.length := by omega
  rw [List.getD_eq_getElem _ _ hx, List.getD_eq_getElem _ _ hj]
  rw [List.getD_eq_getElem _ _ hj] at hp
  simp only [pctChange, List.getElem_zipWith, List.getElem_cons_succ, List.getElem_map]
  rw [PF.sub_fin_fin, PF.div_fin_fin_of_ne _ hp]

theorem pctChange_cells (xs : List ℚ) (h0 : ∀ c ∈ xs, c ≠ 0) (x : PF ℚ)
    (hx : x ∈ pctChange xs) : x = PF.nan ∨ ∃ a, x = PF.fin a := by
  obtain ⟨k, hk, rfl⟩ := List.mem_iff_getElem.mp hx
  cases k with
  | zero => exact Or.inl (pctChange_getElem_zero xs hk)
  | succ j =>
    have hx' : j < xs.length := by rw [pctChange_length] at hk; omega
    have hmem : xs.getD j 0 ∈ xs := by
      rw [List.getD_eq_getElem _ _ hx']
      exact List.getElem_mem _
    exact Or.inr ⟨_, pctChange_getElem_succ xs j hk (h0 _ hmem)⟩

theorem addIndicators_daily_return_col (bars : List Bar) :
    (addIndicators bars).map AnnRow.daily_return =
      pctChange ((List.insertionSort (fun a b => a.date ≤ b.date) bars).map Bar.close) := by
  apply List.ext_getElem
  · rw [List.length_map, addIndicators_length, pctChange_length, List.length_map,
      List.length_insertionSort]
  · intro i h1 h2
    rw [List.getElem_map]
    have hlen : i < bars.length := by
      rw [List.length_map, addIndicators_length] at h1
      exact h1
    simp only [addIndicators, List.getElem_map, List.getElem_range]
    rw [List.getD_eq_getElem _ _ h2]

theorem seriesMean_fin (xs : List (PF ℚ))
    (hcell : ∀ x ∈ xs, x = PF.nan ∨ ∃ a, x = PF.fin a)
    (hex : ∃ x ∈ xs, x ≠ PF.nan) :
    ∃ q, seriesMean xs = PF.fin q := by
  obtain ⟨x0, hx0, hx0n⟩ := hex
  have hx0' : x0 ∈ xs.filter (fun x => !x.isNan) := by
    rw [List.mem_filter]
    refine ⟨hx0, ?_⟩
    rcases hcell x0 hx0 with rfl | ⟨a, rfl⟩
    · exact absurd rfl hx0n
    · simp
  have hvne : xs.filter (fun x => !x.isNan) ≠ [] := fun h => by simp [h] at hx0'
  have hemp : (xs.filter (fun x => !x.isNan)).isEmpty = false := by
    rw [List.isEmpty_eq_false]
    exact hvne
  have hfin : ∀ x ∈ xs.filter (fun x => !x.isNan), ∃ a, x = PF.fin a := by
    intro x hxv
    rw [List.mem_filter] at hxv
    rcases hcell x hxv.1 with rfl | h
    · simp at hxv
    · exact h
  have hlne : ((xs.filter (fun x => !x.isNan)).length : ℚ) ≠ 0 := by
    rw [Nat.cast_ne_zero]
    intro hc
    exact hvne (List.length_eq_zero.mp hc)
  rw [seriesMean]
  simp only [hemp, Bool.false_eq_true, if_false]
  rw [PF.foldl_add_eq_fin _ _ hfin, PF.div_fin_fin_of_ne _ hlne]
  exact ⟨_, rfl⟩

theorem seriesStd_fin (xs : List (PF ℚ))
    (hcell : ∀ x ∈ xs, x = PF.nan ∨ ∃ a, x = PF.fin a)
    (h2 : 2 ≤ (xs.filter (fun x => !x.isNan)).length) :
    ∃ r : ℝ, seriesStd xs = PF.fin r := by
  have hall : (xs.filter (fun x => !x.isNan)).all PF.isFin = true := by
    rw [List.all_eq_true]
    intro x hxv
    rw [List.mem_filter] at hxv
    rcases hcell x hxv.1 with rfl | ⟨a, rfl⟩
    · simp at hxv
    · simp
  rw [seriesStd]
  simp only [hall, if_true]
  rw [if_neg (by omega)]
  exact ⟨_, rfl⟩

theorem generate_symbol_analysis_stats (s : String) (data : List AnnRow)
    (latest : AnnRow) (h : data.getLast? = some latest) :
    ∃ a, generate_symbol_analysis s data = some a ∧
      a.avg_return_7d =
        (seriesMean (lastN 7 (data.map AnnRow.daily_return))).mul (PF.fin 100) ∧
      a.avg_return_30d =
        (seriesMean (lastN 30 (data.map AnnRow.daily_return))).mul (PF.fin 100) ∧
      a.volatility_7d =
        (seriesStd (lastN 7 (data.map AnnRow.daily_return))).mul (PF.fin (100 : ℝ)) ∧
      a.volatility_30d =
        (seriesStd (lastN 30 (data.map AnnRow.daily_return))).mul (PF.fin (100 : ℝ)) := by
  cases hga : generate_symbol_analysis s data with
  | none =>
    simp only [generate_symbol_analysis, h] at hga
    cases hga
  | some a =>
    simp only [generate_symbol_analysis, h, Option.some.injEq] at hga
    refine ⟨a, rfl, ?_, ?_, ?_, ?_⟩ <;> rw [← hga]

theorem getD_drop {β : Type} (xs : List β) (m j : ℕ) (d : β) (h : m + j < xs.length) :
    (xs.drop m).getD j d = xs.getD (m + j) d := by
  rw [List.getD_eq_getElem _ _ (by rw [List.length_drop]; omega),
    List.getD_eq_getElem _ _ h, List.getElem_drop]

theorem pctChange_singleton (c : ℚ) : pctChange [c] = [PF.nan] := by
  simp [pctChange]

/-- C8 (amended): the trailing 7- and 30-day mean of daily return skip the
missing leading return, so they are defined numbers for every series of at
least two bars (positive closes); the corresponding standard deviations
need at least two defined returns, i.e. three bars.  For a one-bar series
all four statistics are the missing marker, not numbers. -/
theorem trailing_return_stats (s : String) (bars : List Bar)
    (hpos : ∀ b ∈ bars, 0 < b.close) :
    (2 ≤ bars.length →
      ∃ a, generate_symbol_analysis s (addIndicators bars) = some a ∧
        a.avg_return_7d.isFin = true ∧ a.avg_return_30d.isFin = true ∧
        (3 ≤ bars.length →
          a.volatility_7d.isFin = true ∧ a.volatility_30d.isFin = true)) ∧
    (bars.length = 1 →
      ∃ a, generate_symbol_analysis s (addIndicators bars) = some a ∧
        a.avg_return_7d = PF.nan ∧ a.avg_return_30d = PF.nan ∧
        a.volatility_7d = PF.nan ∧ a.volatility_30d = PF.nan) := by
  have hc0 : ∀ c ∈ (List.insertionSort (fun a b => a.date ≤ b.date) bars).map Bar.close,
      c ≠ 0 := by
    intro c hc
    rw [List.mem_map] at hc
    obtain ⟨b, hb, rfl⟩ := hc
    exact ne_of_gt (hpos b ((List.perm_insertionSort _ bars).subset hb))
  set closes := (List.insertionSort (fun a b => a.date ≤ b.date) bars).map Bar.close
    with hcloses
  have hclen : closes.length = bars.length := by
    rw [hcloses, List.length_map, List.length_insertionSort]
  have hcol : (addIndicators bars).map AnnRow.daily_return = pctChange closes :=
    addIndicators_daily_return_col bars
  have hcells : ∀ x ∈ pctChange closes, x = PF.nan ∨ ∃ a, x = PF.fin a :=
    pctChange_cells closes hc0
  have hplen : (pctChange closes).length = bars.length := by
    rw [pctChange_length, hclen]
  have hlast : 0 < bars.length →
      ∃ latest, (addIndicators bars).getLast? = some latest := by
    intro hn
    cases hg : (addIndicators bars).getLast? with
    | none =>
      have : addIndicators bars = [] := by simpa using hg
      have hl := addIndicators_length bars
      rw [this] at hl
      simp at hl
      omega
    | some r => exact ⟨r, rfl⟩
  have hcellN : ∀ n : ℕ, ∀ x ∈ lastN n (pctChange closes),
      x = PF.nan ∨ ∃ a, x = PF.fin a :=
    fun n x hx => hcells x (List.drop_subset _ _ hx)
  constructor
  · intro h2
    obtain ⟨latest, hlatest⟩ := hlast (by omega)
    obtain ⟨a, ha, h7, h30, hs7, hs30⟩ :=
      generate_symbol_analysis_stats s (addIndicators bars) latest hlatest
    rw [hcol] at h7 h30 hs7 hs30
    -- the last return cell is defined and lies in every trailing window
    have hex : ∀ n : ℕ, 1 ≤ n → ∃ x ∈ lastN n (pctChange closes), x ≠ PF.nan := by
      intro n hn
      set xs := pctChange closes with hxs
      have hxl : 2 ≤ xs.length := by omega
      set m := xs.length - n with hm
      refine ⟨xs.getD (xs.length - 1) PF.nan, ?_, ?_⟩
      · have hmem : (xs.drop m).getD (xs.length - m - 1) PF.nan ∈ xs.drop m := by
          rw [List.getD_eq_getElem _ _ (by rw [List.length_drop]; omega)]
          exact List.getElem_mem _
        rw [getD_drop xs m _ PF.nan (by omega)] at hmem
        have hidx : m + (xs.length - m - 1) = xs.length - 1 := by omega
        rw [hidx] at hmem
        exact hmem
      · obtain ⟨k, hk⟩ : ∃ k, xs.length - 1 = k + 1 := ⟨xs.length - 2, by omega⟩
        have hkc : k < closes.length := by
          rw [hclen]
          rw [hplen] at hk
          omega
        have hck : closes.getD k 0 ∈ closes := by
          rw [List.getD_eq_getElem _ _ hkc]
          exact List.getElem_mem _
        rw [hk, List.getD_eq_getElem _ _ (by omega),
          pctChange_getElem_succ closes k (by rw [← hxs]; omega) (hc0 _ hck)]
        simp
    obtain ⟨q7, hq7⟩ := seriesMean_fin _ (hcellN 7) (hex 7 (by omega))
    obtain ⟨q30, hq30⟩ := seriesMean_fin _ (hcellN 30) (hex 30 (by omega))
    refine ⟨a, ha, ?_, ?_, ?_⟩
    · rw [h7, hq7, PF.mul_fin_fin]
      rfl
    · rw [h30, hq30, PF.mul_fin_fin]
      rfl
    · intro h3
      have hfilter : ∀ n : ℕ, 2 ≤ n →
          2 ≤ ((lastN n (pctChange closes)).filter (fun x => !x.isNan)).length := by
        intro n hn
        set xs := pctChange closes with hxs
        have hxl : 3 ≤ xs.length := by omega
        have hdd : (lastN n xs).drop (xs.length - 2 - (xs.length - n)) = lastN 2 xs := by
          rw [lastN, lastN, List.drop_drop]
          congr 1
          omega
        have hsub : List.Sublist (lastN 2 xs) (lastN n xs) :=
          hdd ▸ List.drop_sublist _ _
        have hall2 : ∀ x ∈ lastN 2 xs, (!x.isNan) = true := by
          intro x hx
          obtain ⟨j, hj, rfl⟩ := List.mem_iff_getElem.mp hx
          have hj2 : j < 2 := by
            rw [lastN, List.length_drop] at hj
            omega
          have hx2 : (lastN 2 xs)[j] = xs.getD (xs.length - 2 + j) PF.nan := by
            rw [← List.getD_eq_getElem (lastN 2 xs) PF.nan hj]
            exact getD_drop xs _ j PF.nan (by omega)
          rw [hx2]
          obtain ⟨k, hk⟩ : ∃ k, xs.length - 2 + j = k + 1 :=
            ⟨xs.length - 2 + j - 1, by omega⟩
          have hkc : k < closes.length := by
            rw [hclen]
            rw [hplen] at hk
            omega
          have hck : closes.getD k 0 ∈ closes := by
            rw [List.getD_eq_getElem _ _ hkc]
            exact List.getElem_mem _
          rw [hk, List.getD_eq_getElem _ _ (by omega),
            pctChange_getElem_succ closes k (by rw [← hxs]; omega) (hc0 _ hck)]
          simp
        have hlen2 : ((lastN 2 xs).filter (fun x => !x.isNan)).length = 2 := by
          rw [List.filter_eq_self.mpr hall2, lastN, List.length_drop]
          omega
        calc 2 = ((lastN 2 xs).filter (fun x => !x.isNan)).length := hlen2.symm
          _ ≤ _ := (hsub.filter _).length_le
      obtain ⟨r7, hr7⟩ := seriesStd_fin _ (hcellN 7) (hfilter 7 (by omega))
      obtain ⟨r30, hr30⟩ := seriesStd_fin _ (hcellN 30) (hfilter 30 (by omega))
      constructor
      · rw [hs7, hr7, PF.mul_fin_fin]
        rfl
      · rw [hs30, hr30, PF.mul_fin_fin]
        rfl
  · intro h1
    obtain ⟨b, hb⟩ := List.length_eq_one.mp h1
    obtain ⟨latest, hlatest⟩ := hlast (by omega)
    obtain ⟨a, ha, h7, h30, hs7, hs30⟩ :=
      generate_symbol_analysis_stats s (addIndicators bars) latest hlatest
    have hclosesb : closes = [b.close] := by
      rw [hcloses, hb]
      rfl
    rw [hcol, hclosesb, pctChange_singleton] at h7 h30 hs7 hs30
    have hl7 : lastN 7 [(PF.nan : PF ℚ)] = [PF.nan] := by simp [lastN]
    have hl30 : lastN 30 [(PF.nan : PF ℚ)] = [PF.nan] := by simp [lastN]
    have hmn : seriesMean [PF.nan] = PF.nan := by simp [seriesMean]
    have hsn : seriesStd [PF.nan] = PF.nan := by simp [seriesStd]
    refine ⟨a, ha, ?_, ?_, ?_, ?_⟩
    · rw [h7, hl7, hmn]; rfl
    · rw [h30, hl30, hmn]; rfl
    · rw [hs7, hl7, hsn]; rfl
    · rw [hs30, hl30, hsn]; rfl

/-- Counterexample to C8 as stated: for the one-bar series below the 7-day
trailing mean of daily return is the missing marker, not a defined number
(the single `Daily_Return` cell is `nan` and `Series.mean` of an all-`nan`
series is `nan`). -/
theorem one_bar_avg_return_nan :
    (generate_symbol_analysis "X"
        (addIndicators [{ date := 0, open_ := 10, high := 10, low := 10,
                          close := 10, volume := 100 }])).map
      SymbolAnalysis.avg_return_7d = some PF.nan := by
  with_unfolding_all decide

/-- Concrete instance of the amended C8: a three-bar series has defined
7- and 30-day means and standard deviations of daily return. -/
theorem trailing_return_stats_witness :
    (generate_symbol_analysis "X"
        (addIndicators [⟨0, 1, 1, 1, 1, 10⟩, ⟨1, 2, 2, 2, 2, 20⟩,
          ⟨2, 4, 4, 4, 4, 40⟩])).map
      (fun a => (a.avg_return_7d.isFin, a.avg_return_30d.isFin,
                 a.volatility_7d.isFin, a.volatility_30d.isFin)) =
      some (true, true, true, true) := by
  obtain ⟨a, ha, h7, h30, hstd⟩ :=
    (trailing_return_stats "X"
      [⟨0, 1, 1, 1, 1, 10⟩, ⟨1, 2, 2, 2, 2, 20⟩, ⟨2, 4, 4, 4, 4, 40⟩]
      (by intro b hb; fin_cases hb <;> norm_num)).1 (by norm_num)
  obtain ⟨hs7, hs30⟩ := hstd (by norm_num)
  rw [ha]
  simp [h7, h30, hs7, hs30]

/-! ### C1 — an empty parsed series aborts the whole batch -/

/-- C1 (evidence of the divergence): `process_all_data` has no empty-frame
guard — `generate_summary_stats` evaluates `data.iloc[-1]`, so a symbol
whose file parses to an *empty frame* raises an uncaught `IndexError`
(`Except.error`) that aborts the whole batch even though a later symbol has
usable data.  Only a symbol whose *load itself fails* (`process_symbol_data`
returns `None`, e.g. a completely empty file) is skipped, after which the
batch continues and produces the remaining summary. -/
theorem empty_series_crashes_batch :
    process_all_data
        [("EMPTY", some []), ("GOOD", some [⟨0, 10, 10, 10, 10, 100⟩])] =
      Except.error () ∧
    (process_all_data
        [("SKIPPED", none), ("GOOD", some [⟨0, 10, 10, 10, 10, 100⟩])]).toOption.map
      List.length = some 1 := by
  constructor <;> rfl

end Pipeline
